import Mathlib

/-!
Verification development for the kronk table engine.

This file shallowly embeds the core of the engine — the byte codec
(src/table/bytes/mod.rs), the schema and row codec (src/table/schema.rs), the
two row stores (src/table/store/mod.rs), the query lexer and raw parser
(src/table/query/lex.rs, src/table/query/parse.rs), the ad-hoc
whitespace-splitting query parser and the typed comparisons
(src/table/query/mod.rs), and the executor (src/table/db.rs) — and proves or
refutes the specification claims about them.

Modelling conventions:
  * Rust byte buffers are `List Nat`; every byte the model itself produces is
    `< 256`.  Machine integers are `Nat` / `Int` with explicit `% 2 ^ w`
    where wrap-around matters.
  * Rust `Result<A, E>` is `Except E A`.  An operation that can panic
    (slice-index panics, `unwrap`, `expect`, explicit `panic!`) additionally
    returns through `Except RunErr`, whose only constructor `crash` carries
    the (sanitised, apostrophe-free) panic message.  IO on the file backend is
    modelled as reliable: the file of a table is a pure value.
  * Rust `char::is_alphabetic` / `is_numeric` / `is_whitespace` are modelled
    by their ASCII restrictions (`Char.isAlpha`, `Char.isDigit`,
    `Char.isWhitespace`); every input appearing in a claim is ASCII.
-/

set_option maxRecDepth 8000

deriving instance DecidableEq for Except

namespace Kronk

/-- A modelled Rust panic (slice-index panic, `unwrap`/`expect` on the wrong
variant, or an explicit `panic!`). -/
inductive RunErr where
  | crash (msg : String) : RunErr
deriving DecidableEq

/-! ## Little-endian byte codec (src/table/bytes/mod.rs)

`toLe w n` models `n.to_le_bytes()` for a `w`-byte unsigned integer (the
value is reduced modulo `2 ^ (8 * w)` byte by byte, exactly as the machine
integer would wrap).  `fromLe` models `uN::from_le_bytes`. -/

def toLe : Nat → Nat → List Nat
  | 0, _ => []
  | w + 1, n => n % 256 :: toLe w (n / 256)

def fromLe : List Nat → Nat
  | [] => 0
  | b :: bs => b + 256 * fromLe bs

/-- Two's-complement reading of a `w`-byte little-endian value as a signed
integer (models `iN::from_le_bytes`). -/
def asSigned (w : Nat) (n : Nat) : Int :=
  if n < 2 ^ (8 * w - 1) then (n : Int) else (n : Int) - 2 ^ (8 * w)

/-- `impl ToNativeType<u32> for [u8]` (src/table/bytes/mod.rs:18-25).  The
source slices `self[..4]` *before* checking the length, so a buffer shorter
than four bytes panics with a slice-range panic; the
`InsufficientByteBufferSize` error branch is unreachable. -/
inductive NumericTypeConversionError where
  | InsufficientByteBufferSize (needed got : Nat) : NumericTypeConversionError
deriving DecidableEq

def toNativeTypeU32 (buf : List Nat) : Except RunErr (Except NumericTypeConversionError Nat) :=
  if buf.length < 4 then .error (.crash "range end index 4 out of range")
  else .ok (.ok (fromLe (buf.take 4)))

def toNativeTypeI32 (buf : List Nat) : Except RunErr (Except NumericTypeConversionError Int) :=
  if buf.length < 4 then .error (.crash "range end index 4 out of range")
  else .ok (.ok (asSigned 4 (fromLe (buf.take 4))))

def toNativeTypeU64 (buf : List Nat) : Except RunErr (Except NumericTypeConversionError Nat) :=
  if buf.length < 8 then .error (.crash "range end index 8 out of range")
  else .ok (.ok (fromLe (buf.take 8)))

def toNativeTypeI64 (buf : List Nat) : Except RunErr (Except NumericTypeConversionError Int) :=
  if buf.length < 8 then .error (.crash "range end index 8 out of range")
  else .ok (.ok (asSigned 8 (fromLe (buf.take 8))))

/-! ## Decimal rendering and parsing

`natRender` / `intRender` model Rust's `ToString` for unsigned and signed
integers (canonical decimal, `-` prefix for negatives).  `rustParseUnsigned` /
`rustParseSigned` model `str::parse::<uN>` / `str::parse::<iN>` from Rust
core: an optional single sign, then a non-empty digit run, rejected on
overflow.  (Rust checks overflow step by step; since the accumulator is
monotone this is equivalent to one final bound check.) -/

def natDigitsRevAux : Nat → Nat → List Nat
  | 0, _ => []
  | fuel + 1, n => if n = 0 then [] else n % 10 :: natDigitsRevAux fuel (n / 10)

/-- The little-endian decimal digits of `n` (`[]` for 0); the fuel `n` is
always sufficient because `n / 10 < n` for positive `n`. -/
def natDigitsRev (n : Nat) : List Nat := natDigitsRevAux n n

def digitChar (d : Nat) : Char := Char.ofNat (48 + d)

def natRenderChars (n : Nat) : List Char :=
  if n = 0 then ['0'] else ((natDigitsRev n).reverse).map digitChar

def natRender (n : Nat) : String := ⟨natRenderChars n⟩

def intRender (v : Int) : String :=
  if v < 0 then "-" ++ natRender v.natAbs else natRender v.toNat

def digitVal (c : Char) : Option Nat :=
  if c.isDigit then some (c.toNat - 48) else none

/-- ASCII restrictions of `char::is_alphabetic` / `is_numeric` /
`is_whitespace` (they agree with the Rust predicates on every input the
claims exercise). -/
def rustIsAlphabetic (c : Char) : Bool := c.isAlpha

def rustIsNumeric (c : Char) : Bool := c.isDigit

def rustIsWhitespace (c : Char) : Bool := c.isWhitespace

def splitWsGo : List Char → List Char → List String
  | [], acc => if acc.isEmpty then [] else [⟨acc.reverse⟩]
  | c :: rest, acc =>
    if rustIsWhitespace c then
      if acc.isEmpty then splitWsGo rest [] else ⟨acc.reverse⟩ :: splitWsGo rest []
    else splitWsGo rest (c :: acc)

/-- `str::split_whitespace` (ASCII restriction): the maximal non-whitespace
runs, in order, with no empty pieces. -/
def rustSplitWhitespace (s : String) : List String :=
  splitWsGo s.data []

/-- `str::trim` (ASCII restriction). -/
def rustTrim (s : String) : String :=
  ⟨((s.data.dropWhile rustIsWhitespace).reverse.dropWhile rustIsWhitespace).reverse⟩

def parseDigitsAcc : List Char → Nat → Option Nat
  | [], acc => some acc
  | c :: cs, acc =>
    match digitVal c with
    | some d => parseDigitsAcc cs (acc * 10 + d)
    | none => none

/-- Maximal-run digit parse of a non-empty digit string. -/
def rustParseNatCore (cs : List Char) : Option Nat :=
  if cs.isEmpty then none else parseDigitsAcc cs 0

/-- Strip a single leading `+` (unsigned parses accept it). -/
def stripPlus (cs : List Char) : List Char :=
  match cs with
  | [] => []
  | c :: rest => if c = '+' then rest else c :: rest

def rustParseUnsigned (bound : Nat) (s : String) : Option Nat :=
  (rustParseNatCore (stripPlus s.data)).bind fun n =>
    if n < bound then some n else none

/-- `str::parse::<iN>` where `bound = 2 ^ (N - 1)`: the admissible values are
`-bound ≤ v < bound`. -/
def rustParseSigned (bound : Nat) (s : String) : Option Int :=
  match s.data with
  | [] => none
  | c :: rest =>
    if c = '-' then
      (rustParseNatCore rest).bind fun n =>
        if n ≤ bound then some (-(n : Int)) else none
    else if c = '+' then
      (rustParseNatCore rest).bind fun n =>
        if n < bound then some (n : Int) else none
    else
      (rustParseNatCore (c :: rest)).bind fun n =>
        if n < bound then some (n : Int) else none

/-! ## UTF-8 (models `str::as_bytes` and `String::from_utf8`) -/

def utf8Char (c : Char) : List Nat :=
  let n := c.toNat
  if n < 128 then [n]
  else if n < 2048 then [192 + n / 64, 128 + n % 64]
  else if n < 65536 then [224 + n / 4096, 128 + n / 64 % 64, 128 + n % 64]
  else [240 + n / 262144, 128 + n / 4096 % 64, 128 + n / 64 % 64, 128 + n % 64]

def strBytes (s : String) : List Nat :=
  (s.data.map utf8Char).flatten

def isUtf8Cont (b : Nat) : Bool := 128 ≤ b && b < 192

/-- Strict UTF-8 decoding: rejects continuation-byte errors, overlong forms,
surrogates and out-of-range scalars, exactly as `String::from_utf8`. -/
def utf8Decode : List Nat → Option (List Char)
  | [] => some []
  | b :: bs =>
    if b < 128 then (utf8Decode bs).map (Char.ofNat b :: ·)
    else if b < 194 then none
    else if b < 224 then
      match bs with
      | b1 :: rest =>
        if isUtf8Cont b1 then
          (utf8Decode rest).map (Char.ofNat ((b - 192) * 64 + (b1 - 128)) :: ·)
        else none
      | [] => none
    else if b < 240 then
      match bs with
      | b1 :: b2 :: rest =>
        if isUtf8Cont b1 && isUtf8Cont b2 then
          let v := (b - 224) * 4096 + (b1 - 128) * 64 + (b2 - 128)
          if 2048 ≤ v && ¬(55296 ≤ v && v < 57344) then
            (utf8Decode rest).map (Char.ofNat v :: ·)
          else none
        else none
      | _ => none
    else if b < 245 then
      match bs with
      | b1 :: b2 :: b3 :: rest =>
        if isUtf8Cont b1 && isUtf8Cont b2 && isUtf8Cont b3 then
          let v := (b - 240) * 262144 + (b1 - 128) * 4096 + (b2 - 128) * 64 + (b3 - 128)
          if 65536 ≤ v && v < 1114112 then
            (utf8Decode rest).map (Char.ofNat v :: ·)
          else none
        else none
      | _ => none
    else none

def strFromUtf8 (l : List Nat) : Option String :=
  (utf8Decode l).map fun cs => ⟨cs⟩

/-! ## UUIDs (models the `uuid` crate where the engine consumes it)

`rustParseUuid` models `str::parse::<Uuid>` on the canonical hyphenated
8-4-4-4-12 form (the only form the claims exercise); `uuidRender` models
`Uuid::to_string` (lowercase hyphenated hex). -/

def hexVal (c : Char) : Option Nat :=
  if c.isDigit then some (c.toNat - 48)
  else if 97 ≤ c.toNat && c.toNat ≤ 102 then some (c.toNat - 87)
  else if 65 ≤ c.toNat && c.toNat ≤ 70 then some (c.toNat - 55)
  else none

def hexPairs : List Char → Option (List Nat)
  | [] => some []
  | [_] => none
  | c1 :: c2 :: rest => do
    let h1 ← hexVal c1
    let h2 ← hexVal c2
    let bs ← hexPairs rest
    pure ((16 * h1 + h2) :: bs)

def expectHyphen : List Char → Option (List Char)
  | c :: rest => if c = '-' then some rest else none
  | [] => none

def rustParseUuid (s : String) : Option (List Nat) :=
  if s.data.length ≠ 36 then none
  else do
    let p1 ← hexPairs (s.data.take 8)
    let r1 ← expectHyphen (s.data.drop 8)
    let p2 ← hexPairs (r1.take 4)
    let r2 ← expectHyphen (r1.drop 4)
    let p3 ← hexPairs (r2.take 4)
    let r3 ← expectHyphen (r2.drop 4)
    let p4 ← hexPairs (r3.take 4)
    let r4 ← expectHyphen (r3.drop 4)
    let p5 ← hexPairs r4
    pure (p1 ++ p2 ++ p3 ++ p4 ++ p5)

def hexDigitChar (d : Nat) : Char :=
  if d < 10 then digitChar d else Char.ofNat (87 + d)

def byteHex (b : Nat) : List Char := [hexDigitChar (b / 16 % 16), hexDigitChar (b % 16)]

def uuidRender (bs : List Nat) : String :=
  ⟨((bs.take 4).map byteHex).flatten ++ '-' ::
    (((bs.drop 4).take 2).map byteHex).flatten ++ '-' ::
    (((bs.drop 6).take 2).map byteHex).flatten ++ '-' ::
    (((bs.drop 8).take 2).map byteHex).flatten ++ '-' ::
    ((bs.drop 10).map byteHex).flatten⟩

/-! ## Schema (src/table/schema.rs) -/

inductive ColumnDataType where
  | SerialId : ColumnDataType
  | Byte (n : Nat) : ColumnDataType
  | Boolean : ColumnDataType
  | Int32 : ColumnDataType
  | UInt32 : ColumnDataType
  | Int64 : ColumnDataType
  | UInt64 : ColumnDataType
  | UuidV4 : ColumnDataType
deriving DecidableEq

/-- `ColumnDataType::size_in_bytes` (src/table/schema.rs:20-32).  Note that
the source declares `UuidV4 => 128`, not 16. -/
def ColumnDataType.size_in_bytes : ColumnDataType → Nat
  | .SerialId => 8
  | .Byte u => u
  | .Boolean => 1
  | .Int32 => 4
  | .UInt32 => 4
  | .Int64 => 8
  | .UInt64 => 8
  | .UuidV4 => 128

/-- `ColumnDataType::parse_string` (src/table/schema.rs:34-66).  Error
strings are kept apostrophe- and quote-free but otherwise follow the source.
For `Byte(i)` the source tests `s_bytes_len >= i - 1` with usize subtraction
(for `i = 0` a debug build panics on underflow; modelled as the same
rejection, written underflow-free as `len + 1 ≥ i`). -/
def ColumnDataType.parse_string (t : ColumnDataType) (s : String) : Except String (List Nat) :=
  match t with
  | .SerialId => .error "Cannot provide an argument for serial ids"
  | .Boolean =>
    if s = "true" then .ok [1]
    else if s = "false" then .ok [0]
    else .error ("Could not parse " ++ s ++ " to a boolean")
  | .Int32 =>
    match rustParseSigned (2 ^ 31) s with
    | some v => .ok (toLe 4 (v % (2 ^ 32)).toNat)
    | none => .error ("Could not parse " ++ s ++ " to an i32")
  | .UInt32 =>
    match rustParseUnsigned (2 ^ 32) s with
    | some n => .ok (toLe 4 n)
    | none => .error ("Could not parse " ++ s ++ " to a u32")
  | .Int64 =>
    match rustParseSigned (2 ^ 63) s with
    | some v => .ok (toLe 8 (v % (2 ^ 64)).toNat)
    | none => .error ("Could not parse " ++ s ++ " to an i64")
  | .UInt64 =>
    match rustParseUnsigned (2 ^ 64) s with
    | some n => .ok (toLe 8 n)
    | none => .error ("Could not parse " ++ s ++ " to a u64")
  | .UuidV4 =>
    match rustParseUuid s with
    | some bs => .ok bs
    | none => .error ("Could not parse " ++ s ++ " to a Uuid")
  | .Byte i =>
    let bs := strBytes s
    if bs.length + 1 ≥ i then
      .error ("Could not add string as Byte(" ++ natRender i ++ ") because it is too long! (" ++
        natRender bs.length ++ ")")
    else .ok (bs ++ List.replicate (i - bs.length) 0)

/-- `ColumnDataType::parse_bytes` (src/table/schema.rs:75-101).  The numeric
arms go through `from_byte_buffer`, which slices before checking and hence
panics on short buffers (their `Could not parse byte buffer` error is dead
code); `UuidV4` and `Boolean` slice `bytes[..16]` / `bytes[..1]` directly and
panic likewise; only `Byte(n)` checks its length and returns a genuine
error. -/
def ColumnDataType.parse_bytes (t : ColumnDataType) (bytes : List Nat) :
    Except RunErr (Except String String) :=
  match t with
  | .SerialId =>
    match toNativeTypeU64 bytes with
    | .error e => .error e
    | .ok (.error _) => .ok (.error "Could not parse byte buffer to u64")
    | .ok (.ok n) => .ok (.ok (natRender n))
  | .UuidV4 =>
    if bytes.length < 16 then .error (.crash "range end index 16 out of range")
    else .ok (.ok (uuidRender (bytes.take 16)))
  | .Int32 =>
    match toNativeTypeI32 bytes with
    | .error e => .error e
    | .ok (.error _) => .ok (.error "Could not parse byte buffer to i32")
    | .ok (.ok v) => .ok (.ok (intRender v))
  | .UInt32 =>
    match toNativeTypeU32 bytes with
    | .error e => .error e
    | .ok (.error _) => .ok (.error "Could not parse byte buffer to u32")
    | .ok (.ok n) => .ok (.ok (natRender n))
  | .Int64 =>
    match toNativeTypeI64 bytes with
    | .error e => .error e
    | .ok (.error _) => .ok (.error "Could not parse byte buffer to i64")
    | .ok (.ok v) => .ok (.ok (intRender v))
  | .UInt64 =>
    match toNativeTypeU64 bytes with
    | .error e => .error e
    | .ok (.error _) => .ok (.error "Could not parse byte buffer to u64")
    | .ok (.ok n) => .ok (.ok (natRender n))
  | .Boolean =>
    match bytes with
    | [] => .error (.crash "range end index 1 out of range")
    | b :: _ => .ok (.ok (if b ≠ 0 then "true" else "false"))
  | .Byte max_length =>
    if bytes.length < max_length then .ok (.error "Insufficient byte buffer size")
    else
      match strFromUtf8 (bytes.takeWhile (· ≠ 0)) with
      | none => .ok (.error "could not parse byte buffer to a valid utf-8 string")
      | some s => .ok (.ok s)

structure TableColumn where
  name : String
  datatype : ColumnDataType
  offset : Nat
deriving DecidableEq

structure TableDescriptor where
  table_name : String
  columns : List TableColumn
deriving DecidableEq

structure DatabaseDescriptor where
  db_name : String
  tables : List TableDescriptor
deriving DecidableEq

/-- The offset-accumulating column construction inside `TableDescriptor::new`
(src/table/schema.rs:160-166). -/
def buildCols : Nat → List (String × ColumnDataType) → List TableColumn
  | _, [] => []
  | off, (n, t) :: rest => ⟨n, t, off⟩ :: buildCols (off + t.size_in_bytes) rest

/-- `TableDescriptor::new` (src/table/schema.rs:153-169). -/
def TableDescriptor.new (name : String) (columns : List (String × ColumnDataType)) :
    Except String TableDescriptor :=
  if (columns.filter fun c => c.2 == ColumnDataType.SerialId).length ≠ 1 then
    .error "Table descriptor requires exactly 1 serial id"
  else .ok ⟨name, buildCols 0 columns⟩

/-- `TableDescriptor::total_size` (src/table/schema.rs:171-174). -/
def TableDescriptor.total_size (d : TableDescriptor) : Nat :=
  (d.columns.map (fun c => c.datatype.size_in_bytes)).sum

/-- Modelled from the spec: `total_row_size` is called by both store
implementations and by `Database::query` but is not defined anywhere under
src/.  The spec defines the row size as the sum of `size_in_bytes` over the
declared columns, which is exactly `TableDescriptor::total_size`. -/
def TableDescriptor.total_row_size (d : TableDescriptor) : Nat :=
  d.total_size

/-- `TableDescriptor::id_column` (src/table/schema.rs:176-179) before its
`unwrap`; call sites model the `unwrap` as a crash on `none`. -/
def TableDescriptor.id_column? (d : TableDescriptor) : Option TableColumn :=
  d.columns.find? fun c => c.datatype == ColumnDataType.SerialId

/-- `TableDescriptor::column_for_name` (src/table/schema.rs:181-184). -/
def TableDescriptor.column_for_name (d : TableDescriptor) (name : String) : Option TableColumn :=
  d.columns.find? fun c => c.name == name

/-- `DatabaseDescriptor::table_with_name` (src/table/schema.rs:146-150). -/
def DatabaseDescriptor.table_with_name (db : DatabaseDescriptor) (name : String) :
    Option TableDescriptor :=
  db.tables.find? fun t => t.table_name == name

/-- The per-column loop of `TableDescriptor::get_insertion_bytes`
(src/table/schema.rs:186-210): serial-id columns take the little-endian id,
supplied columns (matched by name) take their parsed value, unsupplied
columns are zero-filled to their declared width. -/
def insertionBytesGo (id : Nat) (columns : List (String × String)) :
    List TableColumn → Except String (List Nat)
  | [] => .ok []
  | c :: rest =>
    if c.datatype == ColumnDataType.SerialId then
      (insertionBytesGo id columns rest).map (fun r => toLe 8 id ++ r)
    else
      match columns.find? (fun cc => cc.1 == c.name) with
      | some cc => do
        let parsed ← c.datatype.parse_string cc.2
        let r ← insertionBytesGo id columns rest
        pure (parsed ++ r)
      | none =>
        (insertionBytesGo id columns rest).map
          (fun r => List.replicate c.datatype.size_in_bytes 0 ++ r)

def TableDescriptor.get_insertion_bytes (d : TableDescriptor) (id : Nat)
    (columns : List (String × String)) : Except String (List Nat) :=
  insertionBytesGo id columns d.columns

/-! ## Row stores (src/table/store/mod.rs) -/

structure InMemoryByteStore where
  table_name : String
  id_counter : Nat
  mem : List Nat
deriving DecidableEq

/-- `InMemoryByteStore::new` (src/table/store/mod.rs:16-24).  The source
initialises `id_counter` to 1, not 0. -/
def InMemoryByteStore.new (d : TableDescriptor) : InMemoryByteStore :=
  ⟨d.table_name, 1, []⟩

/-- `<InMemoryByteStore as ByteStore>::insert` (src/table/store/mod.rs:33-44).
The mutation order follows the source: the `?` on `get_insertion_bytes`
returns before the counter is touched, but `id_counter += 1` runs *before*
the row-size check, so the invalid-row-size error leaves the byte stream
unchanged while still advancing the counter. -/
def InMemoryByteStore.insert (s : InMemoryByteStore) (descriptor : TableDescriptor)
    (columns : List (String × String)) : Except String Unit × InMemoryByteStore :=
  match descriptor.get_insertion_bytes s.id_counter columns with
  | .error e => (.error e, s)
  | .ok bytes =>
    let s' : InMemoryByteStore := { s with id_counter := s.id_counter + 1 }
    if bytes.length ≠ descriptor.total_row_size then
      (.error "invalid table insertion", s')
    else
      (.ok (), { s' with mem := s'.mem ++ bytes })

/-- The persistent content of a table file under `./.kronkstore/tables/`:
bytes 0..8 hold the next id as a little-endian u64 (here a `Nat < 2 ^ 64`),
bytes 8..64 are reserved zeros, `body` is everything from offset 64. -/
structure FileStoreState where
  id_counter : Nat
  body : List Nat
deriving DecidableEq

/-- The file written by `FileByteStore::new` (src/table/store/mod.rs:58-79)
for a table that did not exist yet: a 64-byte zeroed header, no rows. -/
def FileByteStore.freshFile : FileStoreState := ⟨0, []⟩

/-- `<FileByteStore as ByteStore>::insert` (src/table/store/mod.rs:101-115),
with filesystem IO modelled as reliable (the source silently drops the
result of the final `set_id_counter`).  The id is read from the file header
on every insert. -/
def FileByteStore.insert (st : FileStoreState) (descriptor : TableDescriptor)
    (columns : List (String × String)) : Except String Unit × FileStoreState :=
  match descriptor.get_insertion_bytes st.id_counter columns with
  | .error e => (.error e, st)
  | .ok bytes =>
    if bytes.length ≠ descriptor.total_row_size then
      (.error "invalid table insertion", st)
    else
      (.ok (), ⟨st.id_counter + 1, st.body ++ bytes⟩)

/-- Run a sequence of inserts against the in-memory store; `none` as soon as
one returns an error. -/
def memRunInserts (d : TableDescriptor) :
    List (List (String × String)) → InMemoryByteStore → Option InMemoryByteStore
  | [], s => some s
  | cols :: rest, s =>
    match s.insert d cols with
    | (.ok _, s') => memRunInserts d rest s'
    | (.error _, _) => none

def fileRunInserts (d : TableDescriptor) :
    List (List (String × String)) → FileStoreState → Option FileStoreState
  | [], st => some st
  | cols :: rest, st =>
    match FileByteStore.insert st d cols with
    | (.ok _, st') => fileRunInserts d rest st'
    | (.error _, _) => none

/-- Split a list into consecutive chunks of `k` elements (a trailing shorter
chunk is kept).  Models both `slice::chunks` and reading a scan stream
`row_size` bytes at a time. -/
def chunksOfAux {α : Type} (k : Nat) : Nat → List α → List (List α)
  | 0, _ => []
  | _, [] => []
  | fuel + 1, x :: xs =>
    if k = 0 then []
    else (x :: xs).take k :: chunksOfAux k fuel ((x :: xs).drop k)

def chunksOf {α : Type} (k : Nat) (l : List α) : List (List α) :=
  chunksOfAux k l.length l

/-- The serial ids carried by the rows of a scanned byte stream: split into
rows of `total_row_size` bytes and decode eight little-endian bytes at the
serial-id column's offset. -/
def scanRowIds (d : TableDescriptor) (body : List Nat) : List Nat :=
  match d.id_column? with
  | some idc =>
    (chunksOf d.total_row_size body).map fun r => fromLe ((r.drop idc.offset).take 8)
  | none => []

/-! ## Typed comparisons (src/table/query/mod.rs) -/

inductive PartialOrdOperator where
  | GreaterThan | GreaterEqual | LessThan | LessEqual
deriving DecidableEq

def PartialOrdOperator.evaluate {α : Type} [LinearOrder α] :
    PartialOrdOperator → α → α → Bool
  | .GreaterThan, a, b => decide (a > b)
  | .GreaterEqual, a, b => decide (a ≥ b)
  | .LessThan, a, b => decide (a < b)
  | .LessEqual, a, b => decide (a ≤ b)

/-- `FromStr for PartialOrdOperator` (src/table/query/mod.rs:52-63). -/
def PartialOrdOperator.from_str (s : String) : Except String PartialOrdOperator :=
  if rustTrim s = ">=" then .ok .GreaterEqual
  else if rustTrim s = ">" then .ok .GreaterThan
  else if rustTrim s = "<=" then .ok .LessEqual
  else if rustTrim s = "<" then .ok .LessThan
  else .error ("Invalid partial ord operator " ++ s)

inductive PartialEqOperator where
  | Equal | NotEqual
deriving DecidableEq

def PartialEqOperator.evaluate {α : Type} [DecidableEq α] :
    PartialEqOperator → α → α → Bool
  | .Equal, a, b => decide (a = b)
  | .NotEqual, a, b => decide (a ≠ b)

/-- `FromStr for PartialEqOperator` (src/table/query/mod.rs:82-91). -/
def PartialEqOperator.from_str (s : String) : Except String PartialEqOperator :=
  if rustTrim s = "==" then .ok .Equal
  else if rustTrim s = "!=" then .ok .NotEqual
  else .error ("Invalid partial eq operator " ++ s)

inductive EqOrdOperator where
  | Eq (op : PartialEqOperator)
  | Ord (op : PartialOrdOperator)
deriving DecidableEq

def EqOrdOperator.evaluate {α : Type} [LinearOrder α] : EqOrdOperator → α → α → Bool
  | .Eq op, a, b => op.evaluate a b
  | .Ord op, a, b => op.evaluate a b

/-- `FromStr for EqOrdOperator` (src/table/query/mod.rs:111-122): try the
equality operators first, then the ordering ones. -/
def EqOrdOperator.from_str (s : String) : Except String EqOrdOperator :=
  match PartialEqOperator.from_str s with
  | .ok op => .ok (.Eq op)
  | .error _ =>
    match PartialOrdOperator.from_str s with
    | .ok op => .ok (.Ord op)
    | .error _ => .error ("invalid operator " ++ s)

/-- `WhereComparison` (src/table/query/mod.rs:150-160); a `Uuid` value is its
sixteen raw bytes, a `String` value is the comparison text. -/
inductive WhereComparison where
  | Int32C (op : EqOrdOperator) (value : Int)
  | UInt32C (op : EqOrdOperator) (value : Nat)
  | Int64C (op : EqOrdOperator) (value : Int)
  | UInt64C (op : EqOrdOperator) (value : Nat)
  | UuidV4C (op : PartialEqOperator) (value : List Nat)
  | StringC (op : PartialEqOperator) (value : String)
  | SerialIdC (op : EqOrdOperator) (value : Nat)
  | BooleanC (op : PartialEqOperator) (value : Bool)
deriving DecidableEq

/-- `ColumnDataType::parse_where_comparison` (src/table/query/mod.rs:162-244).
`str::parse::<bool>` accepts exactly the literals `true` / `false`. -/
def ColumnDataType.parse_where_comparison (t : ColumnDataType) (op value : String) :
    Except String WhereComparison :=
  match t with
  | .Boolean =>
    match (if value = "true" then some true else if value = "false" then some false
      else none) with
    | none => .error ("Invalid where expression: " ++ value ++ " is not a boolean value")
    | some v =>
      match PartialEqOperator.from_str op with
      | .error e => .error ("Invalid where expression: " ++ e)
      | .ok parsed_op => .ok (.BooleanC parsed_op v)
  | .SerialId =>
    match rustParseUnsigned (2 ^ 64) value with
    | none => .error ("Invalid where expression: " ++ value ++ " is not a serial id")
    | some v =>
      match EqOrdOperator.from_str op with
      | .error e => .error ("Invalid where expression: " ++ e)
      | .ok parsed_op => .ok (.SerialIdC parsed_op v)
  | .Int32 =>
    match rustParseSigned (2 ^ 31) value with
    | none => .error ("Invalid where expression: " ++ value ++ " is not an int32 value")
    | some v =>
      match EqOrdOperator.from_str op with
      | .error e => .error ("Invalid where expression: " ++ e)
      | .ok parsed_op => .ok (.Int32C parsed_op v)
  | .UInt32 =>
    match rustParseUnsigned (2 ^ 32) value with
    | none => .error ("Invalid where expression: " ++ value ++ " is not a u32 value")
    | some v =>
      match EqOrdOperator.from_str op with
      | .error e => .error ("Invalid where expression: " ++ e)
      | .ok parsed_op => .ok (.UInt32C parsed_op v)
  | .Int64 =>
    match rustParseSigned (2 ^ 63) value with
    | none => .error ("Invalid where expression: " ++ value ++ " is not an i64 value")
    | some v =>
      match EqOrdOperator.from_str op with
      | .error e => .error ("Invalid where expression: " ++ e)
      | .ok parsed_op => .ok (.Int64C parsed_op v)
  | .UInt64 =>
    match rustParseUnsigned (2 ^ 64) value with
    | none => .error ("Invalid where expression: " ++ value ++ " is not a u64 value")
    | some v =>
      match EqOrdOperator.from_str op with
      | .error e => .error ("Invalid where expression: " ++ e)
      | .ok parsed_op => .ok (.UInt64C parsed_op v)
  | .UuidV4 =>
    match rustParseUuid value with
    | none => .error ("Invalid where expression: " ++ value ++ " is not a uuid value")
    | some v =>
      match PartialEqOperator.from_str op with
      | .error e => .error ("Invalid where expression: " ++ e)
      | .ok parsed_op => .ok (.UuidV4C parsed_op v)
  | .Byte _ =>
    match PartialEqOperator.from_str op with
    | .error e => .error ("Invalid where expression: " ++ e)
    | .ok parsed_op => .ok (.StringC parsed_op value)

/-- `WhereComparison::is_true` (src/table/query/mod.rs:247-279); the source
slices and `unwrap`s, so undersized buffers and invalid UTF-8 panic. -/
def WhereComparison.is_true (w : WhereComparison) (buf : List Nat) : Except RunErr Bool :=
  match w with
  | .SerialIdC op v =>
    if buf.length < 8 then .error (.crash "range end index 8 out of range")
    else .ok (op.evaluate (fromLe (buf.take 8)) v)
  | .Int32C op v =>
    if buf.length < 4 then .error (.crash "range end index 4 out of range")
    else .ok (op.evaluate (asSigned 4 (fromLe (buf.take 4))) v)
  | .UInt32C op v =>
    if buf.length < 4 then .error (.crash "range end index 4 out of range")
    else .ok (op.evaluate (fromLe (buf.take 4)) v)
  | .Int64C op v =>
    if buf.length < 8 then .error (.crash "range end index 8 out of range")
    else .ok (op.evaluate (asSigned 8 (fromLe (buf.take 8))) v)
  | .UInt64C op v =>
    if buf.length < 8 then .error (.crash "range end index 8 out of range")
    else .ok (op.evaluate (fromLe (buf.take 8)) v)
  | .UuidV4C op v =>
    if buf.length < 16 then .error (.crash "range end index 16 out of range")
    else .ok (op.evaluate (buf.take 16) v)
  | .BooleanC op v =>
    match buf with
    | [] => .error (.crash "index out of bounds")
    | b :: _ => .ok (op.evaluate (decide (b ≠ 0)) v)
  | .StringC op v =>
    match strFromUtf8 (buf.takeWhile (· ≠ 0)) with
    | none => .error (.crash "called Result unwrap on an Err value")
    | some s => .ok (op.evaluate s v)

structure WhereCondition where
  column : TableColumn
  comparison : WhereComparison
deriving DecidableEq

structure WherePredicate where
  conditions : List WhereCondition
deriving DecidableEq

/-- `SelectQuery` (src/table/query/mod.rs:13-18); the borrowed references of
the source become copies of the referenced descriptor values. -/
structure SelectQuery where
  table : TableDescriptor
  columns : List TableColumn
  where_predicate : Option WherePredicate
deriving DecidableEq


/-- One chunk of the WHERE-clause token triples inside
`SelectQuery::parse_query_string` (src/table/query/mod.rs:314-330).  The
source indexes `c[0] c[1] c[2]`, which panics on a trailing chunk shorter
than three tokens. -/
def whereConditionsFor (table : TableDescriptor) :
    List (List String) → Except RunErr (List (Except String WhereCondition))
  | [] => .ok []
  | c :: rest =>
    match c with
    | c0 :: c1 :: c2 :: _ =>
      let item : Except String WhereCondition :=
        match table.column_for_name c0 with
        | none => .error ("Invalid where comparison: column " ++ c0 ++ " does not exist")
        | some tc =>
          match tc.datatype.parse_where_comparison c1 c2 with
          | .error e => .error e
          | .ok wc => .ok ⟨tc, wc⟩
      (whereConditionsFor table rest).map (item :: ·)
    | _ => .error (.crash "index out of bounds")

/-- `SelectQuery::parse_query_string` (src/table/query/mod.rs:283-346): the
ad-hoc whitespace-splitting parser.  Outer `Except RunErr` models its panics:
the `unwrap` on a missing table-name token, and the `tokens[(4+n)..]` slice
whose start can exceed the token count. -/
def SelectQuery.parse_query_string (query : String) (db : DatabaseDescriptor) :
    Except RunErr (Except String SelectQuery) :=
  let tokens := rustSplitWhitespace (rustTrim query)
  match tokens with
  | [] => .ok (.error "Query cannot be empty")
  | t0 :: _ =>
    if t0 ≠ "select" then
      .ok (.error "invalid query: the only allowed query command is select")
    else
      let columns_ending_idx := (tokens.takeWhile (· ≠ "from")).length
      if columns_ending_idx = tokens.length then .ok (.error "Invalid query: missing from")
      else
        let select_column_names := (tokens.take columns_ending_idx).drop 1
        match (tokens.drop (columns_ending_idx + 1)).head? with
        | none => .error (.crash "called Option unwrap on a None value")
        | some table_name =>
          match db.table_with_name table_name with
          | none => .ok (.error ("Invalid query: no table " ++ table_name ++ " exists"))
          | some table =>
            let select_columns := select_column_names.map table.column_for_name
            if select_columns.any (fun c => c.isNone) then .ok (.error "Missing column!")
            else
              -- every entry is `some` here (just checked), so `filterMap id`
              -- models the closing `map(|scn| scn.unwrap())`
              let cols := select_columns.filterMap id
              if select_columns.length = tokens.length - 1 then
                .ok (.ok ⟨table, cols, none⟩)
              else if 4 + select_columns.length > tokens.length then
                .error (.crash "range start index out of range for slice")
              else
                let rest := tokens.drop (4 + select_columns.length)
                match whereConditionsFor table (chunksOf 3 rest) with
                | .error e => .error e
                | .ok results =>
                  match results.find? (fun r => match r with
                    | .error _ => true
                    | .ok _ => false) with
                  | some (.error e) => .ok (.error e)
                  | _ =>
                    .ok (.ok ⟨table, cols,
                      some ⟨results.filterMap (fun r => r.toOption)⟩⟩)

/-! ## Lexer (src/table/query/lex.rs)

The iterator state is the query as a character list plus a character index
and a sticky error, mirroring `TokenIterator`.  (The source mixes byte and
character indexing, which agree on the ASCII inputs the claims use.) -/

inductive KeywordToken where
  | Select | From | Where | As
deriving DecidableEq

inductive CharacterToken where
  | LeftParen | RightParen | LeftBracket | RightBracket | Dot | Comma
  | GreaterThan | GreaterEqual | LessThan | LessEqual | EqualEqual | NotEqual
deriving DecidableEq

/-- `QueryToken` (src/table/query/lex.rs:122-128); `Str` / `Num` model the
source's `String` / `Number` variants. -/
inductive QueryToken where
  | Character (c : CharacterToken)
  | Keyword (k : KeywordToken)
  | Str (s : String)
  | Num (s : String)
deriving DecidableEq

inductive LexingError where
  | InvalidSyntax
  | UnexpectedEndOfInput
  | UnexpectedCharacter (c : Char)
  | InvalidEscapeCharacter (c : Char)
deriving DecidableEq

inductive ParsingError where
  | Lexing (e : LexingError)
  | UnexpectedToken (expected actual : QueryToken)
  | UnexpectedEndOfInput
  | InvalidSyntax
deriving DecidableEq

/-- `TryFrom<&str> for KeywordToken` (src/table/query/lex.rs:77-88). -/
def KeywordToken.try_from (s : String) : Option KeywordToken :=
  if s = "select" then some .Select
  else if s = "from" then some .From
  else if s = "where" then some .Where
  else if s = "as" then some .As
  else none

structure TokenIterator where
  token_string : List Char
  index : Nat
  err : Option LexingError
deriving DecidableEq

def TokenIterator.current_char (it : TokenIterator) : Option Char :=
  it.token_string.get? it.index

def TokenIterator.next_char (it : TokenIterator) : Option Char :=
  it.token_string.get? (it.index + 1)

/-- `TokenIterator::advance_while`: closed form of the source's
one-character-at-a-time loop. -/
def TokenIterator.advance_while (it : TokenIterator) (p : Char → Bool) : TokenIterator :=
  { it with index := it.index + ((it.token_string.drop it.index).takeWhile p).length }

/-- `TokenIterator::next_alphabetic_string` (src/table/query/lex.rs:294-301):
the maximal run of `is_alphabetic` characters from the current index —
digits and underscores end the run. -/
def TokenIterator.next_alphabetic_string (it : TokenIterator) : List Char :=
  (it.token_string.drop it.index).takeWhile rustIsAlphabetic

/-- `TokenIterator::consume_in_string` (src/table/query/lex.rs:251-287) on
the characters after the opening quote; returns the token or error together
with the number of characters consumed (errors do not set the sticky error
and leave the index at the offending character). -/
def consumeInString : List Char → Bool → List Char → Except LexingError (List Char) × Nat
  | [], _, _ => (.error .UnexpectedEndOfInput, 0)
  | c :: rest, esc, acc =>
    if c == '"' && !esc then (.ok acc, 1)
    else if esc then
      if c == '"' then
        let (r, n) := consumeInString rest false (acc ++ ['"'])
        (r, n + 1)
      else (.error (.InvalidEscapeCharacter c), 0)
    else if c == '\\' then
      let (r, n) := consumeInString rest true acc
      (r, n + 1)
    else
      let (r, n) := consumeInString rest esc (acc ++ [c])
      (r, n + 1)

/-- `<TokenIterator as Iterator>::next` (src/table/query/lex.rs:304-364):
one scanning step. -/
def lexNext (it : TokenIterator) : Option (Except LexingError QueryToken) × TokenIterator :=
  if it.err.isSome then (none, it)
  else
    let it := it.advance_while rustIsWhitespace
    match it.current_char with
    | none => (none, it)
    | some fc =>
      if rustIsAlphabetic fc then
        let ss := it.next_alphabetic_string
        let it' := it.advance_while rustIsAlphabetic
        match KeywordToken.try_from ⟨ss⟩ with
        | some kw => (some (.ok (.Keyword kw)), it')
        | none => (some (.ok (.Str ⟨ss⟩)), it')
      else if rustIsNumeric fc then
        let r := (it.token_string.drop it.index).takeWhile rustIsNumeric
        let it' := it.advance_while rustIsNumeric
        (some (.ok (.Num ⟨r⟩)), it')
      else if fc == '"' then
        let it1 : TokenIterator := { it with index := it.index + 1 }
        let (r, n) := consumeInString (it1.token_string.drop it1.index) false []
        let it2 : TokenIterator := { it1 with index := it1.index + n }
        match r with
        | .ok acc => (some (.ok (.Str ⟨acc⟩)), it2)
        | .error e => (some (.error e), it2)
      else if fc == '(' then
        (some (.ok (.Character .LeftParen)), { it with index := it.index + 1 })
      else if fc == ')' then
        (some (.ok (.Character .RightParen)), { it with index := it.index + 1 })
      else if fc == '[' then
        (some (.ok (.Character .LeftBracket)), { it with index := it.index + 1 })
      else if fc == ']' then
        (some (.ok (.Character .RightBracket)), { it with index := it.index + 1 })
      else if fc == '.' then
        (some (.ok (.Character .Dot)), { it with index := it.index + 1 })
      else if fc == ',' then
        (some (.ok (.Character .Comma)), { it with index := it.index + 1 })
      else if fc == '=' || fc == '<' || fc == '>' || fc == '!' then
        match it.next_char with
        | none => (some (.error .UnexpectedEndOfInput), it)
        | some sc =>
          let r : Except LexingError CharacterToken :=
            if fc == '=' && sc == '=' then .ok .EqualEqual
            else if fc == '!' && sc == '=' then .ok .NotEqual
            else if fc == '<' && sc == '=' then .ok .LessEqual
            else if fc == '>' && sc == '=' then .ok .GreaterEqual
            else if fc == '>' then .ok .GreaterThan
            else if fc == '<' then .ok .LessThan
            else .error (.UnexpectedCharacter fc)
          match r with
          | .ok c => (some (.ok (.Character c)), { it with index := it.index + 2 })
          | .error e =>
            (some (.error e), { it with index := it.index + 2, err := some e })
      else
        (some (.error (.UnexpectedCharacter fc)),
          { it with err := some (.UnexpectedCharacter fc) })

def lexAll : Nat → TokenIterator → List (Except LexingError QueryToken)
  | 0, _ => []
  | fuel + 1, it =>
    match lexNext it with
    | (none, _) => []
    | (some r, it') => r :: lexAll fuel it'

/-- The full (lazy) token sequence of a query string, materialised with
`length + 1` steps of fuel.  Each emitted item either advances the index or
sets the sticky error, except for the `=`/`!`-at-end-of-input item, which the
source iterator yields forever; the fuel truncates that (the parser only ever
peeks its first occurrence). -/
def lexTokens (s : String) : List (Except LexingError QueryToken) :=
  lexAll (s.data.length + 1) ⟨s.data, 0, none⟩

/-! ## Raw AST and token parser (src/table/query/lex.rs, src/table/query/parse.rs)

`parse.rs` and the lower half of `lex.rs` contain the same `TokenParser` and
SELECT grammar; the embedding models them once, under the `parse.rs` entry
point `RawParse::parse_string`. -/

inductive RawSelectQueryWhereExpressionOperator where
  | GreaterThan | GreaterEqual | LessThan | LessEqual | EqualEqual | NotEqual
deriving DecidableEq

structure RawSelectColumnReference where
  column_name : String
  table_identifier : Option String
deriving DecidableEq

structure RawSelectQueryColumn where
  column : RawSelectColumnReference
  as_name : Option String
deriving DecidableEq

structure RawSelectQueryWhereComparison where
  column : RawSelectColumnReference
  op : RawSelectQueryWhereExpressionOperator
  value : String
deriving DecidableEq

inductive RawSelectQueryWhereExpression where
  | Single (c : RawSelectQueryWhereComparison)
  | And (a b : RawSelectQueryWhereExpression)
  | Or (a b : RawSelectQueryWhereExpression)
  | Not (a : RawSelectQueryWhereExpression)
deriving DecidableEq

structure RawSelectQuery where
  table_name : String
  table_identifier : Option String
  columns : List RawSelectQueryColumn
  where_expression : Option RawSelectQueryWhereExpression
deriving DecidableEq

/-- `TryFrom<CharacterToken> for RawSelectQueryWhereExpressionOperator`
(src/table/query/lex.rs:106-120). -/
def opTryFromCharacter (c : CharacterToken) :
    Except ParsingError RawSelectQueryWhereExpressionOperator :=
  match c with
  | .GreaterThan => .ok .GreaterThan
  | .GreaterEqual => .ok .GreaterEqual
  | .LessThan => .ok .LessThan
  | .LessEqual => .ok .LessEqual
  | .EqualEqual => .ok .EqualEqual
  | .NotEqual => .ok .NotEqual
  | c => .error (.UnexpectedToken (.Character .Comma) (.Character c))

/-- The `TokenParser`'s peekable stream: the not-yet-consumed token items,
lexing errors already lifted to parsing errors. -/
def TokenStream : Type := List (Except ParsingError QueryToken)

instance : DecidableEq TokenStream := by
  unfold TokenStream
  infer_instance

/-- `TokenParser::expect_current_token`: peek without consuming. -/
def tpExpectCurrent (l : TokenStream) : Except ParsingError QueryToken :=
  match l.head? with
  | none => .error .UnexpectedEndOfInput
  | some (.error e) => .error e
  | some (.ok t) => .ok t

def tpIsFinished (l : TokenStream) : Bool := l.isEmpty

/-- `TokenParser::consume_token`: advance, then report the *new* current
token — so consuming the stream's last token, or a token followed by a
lexing error, yields that error to callers that use `consume_token()?`. -/
def tpConsumeToken (l : TokenStream) : Except ParsingError QueryToken × TokenStream :=
  (tpExpectCurrent (l.drop 1), l.drop 1)

def tpConsumeAKeyword (kw : KeywordToken) (l : TokenStream) :
    Except ParsingError TokenStream := do
  let t ← tpExpectCurrent l
  if t == QueryToken.Keyword kw then do
    let _ ← tpExpectCurrent (l.drop 1)
    pure (l.drop 1)
  else throw (.UnexpectedToken (.Keyword kw) t)

def tpMaybeConsumeAKeyword (kw : KeywordToken) (l : TokenStream) :
    Except ParsingError (Bool × TokenStream) := do
  let t ← tpExpectCurrent l
  if t == QueryToken.Keyword kw then do
    let _ ← tpExpectCurrent (l.drop 1)
    pure (true, l.drop 1)
  else pure (false, l)

def tpIsAKeyword (kw : KeywordToken) (l : TokenStream) : Except ParsingError Bool := do
  let t ← tpExpectCurrent l
  pure (t == QueryToken.Keyword kw)

def tpIsACharacter (c : CharacterToken) (l : TokenStream) : Except ParsingError Bool := do
  let t ← tpExpectCurrent l
  pure (t == QueryToken.Character c)

def tpMaybeConsumeACharacter (c : CharacterToken) (l : TokenStream) :
    Except ParsingError (Bool × TokenStream) := do
  let t ← tpExpectCurrent l
  if t == QueryToken.Character c then do
    let _ ← tpExpectCurrent (l.drop 1)
    pure (true, l.drop 1)
  else pure (false, l)

def tpConsumeCharacter (l : TokenStream) :
    Except ParsingError (CharacterToken × TokenStream) := do
  let t ← tpExpectCurrent l
  match t with
  | .Character c => do
    let _ ← tpExpectCurrent (l.drop 1)
    pure (c, l.drop 1)
  | t => throw (.UnexpectedToken (.Character .Comma) t)

def tpIsString (l : TokenStream) : Except ParsingError Bool := do
  let t ← tpExpectCurrent l
  pure (match t with | .Str _ => true | _ => false)

/-- `TokenParser::consume_string` (src/table/query/parse.rs:243-249): on a
string token it consumes and returns it, *discarding* the result of the
inner `consume_token` (so a trailing string token is consumable); otherwise
the `UnexpectedToken(String(""), actual)` of `expect_string`. -/
def tpConsumeString (l : TokenStream) : Except ParsingError (String × TokenStream) :=
  match tpExpectCurrent l with
  | .ok (.Str s) => .ok (s, l.drop 1)
  | .ok t => .error (.UnexpectedToken (.Str "") t)
  | .error e => .error e

/-- `RawParse::parse_column_reference` (src/table/query/parse.rs:71-84). -/
def parse_column_reference (l : TokenStream) :
    Except ParsingError (RawSelectColumnReference × TokenStream) := do
  let (s1, l) ← tpConsumeString l
  let isDot ← tpIsACharacter .Dot l
  if isDot then do
    let (r, l) := tpConsumeToken l
    let _ ← r
    let (s2, l) ← tpConsumeString l
    pure (⟨s2, some s1⟩, l)
  else
    pure (⟨s1, none⟩, l)

/-- `RawParse::parse_query_column` (src/table/query/parse.rs:56-69). -/
def parse_query_column (l : TokenStream) :
    Except ParsingError (RawSelectQueryColumn × TokenStream) := do
  let (column, l) ← parse_column_reference l
  let isAs ← tpIsAKeyword .As l
  if isAs then do
    let (r, l) := tpConsumeToken l
    let _ ← r
    let (s, l) ← tpConsumeString l
    pure (⟨column, some s⟩, l)
  else pure (⟨column, none⟩, l)

/-- The `while columns.len() == 0 || maybe_consume(Comma)` loop of
`RawParse::parse_string`.  Every iteration consumes at least one token, so
fuel `length + 1` never runs out; the fuel-exhaustion arm is unreachable. -/
def parseColumnsLoop : Nat → TokenStream → List RawSelectQueryColumn →
    Except ParsingError (List RawSelectQueryColumn × TokenStream)
  | 0, _, _ => .error .InvalidSyntax
  | fuel + 1, l, cols =>
    if cols.isEmpty then do
      let (c, l) ← parse_query_column l
      parseColumnsLoop fuel l (cols ++ [c])
    else do
      let (b, l') ← tpMaybeConsumeACharacter .Comma l
      if b then do
        let (c, l'') ← parse_query_column l'
        parseColumnsLoop fuel l'' (cols ++ [c])
      else pure (cols, l')

/-- `RawParse::parse_string` (src/table/query/parse.rs:9-54): the
lexer-driven SELECT parser over the token stream. -/
def RawParse.parse_string (query : String) : Except ParsingError RawSelectQuery := do
  let l : TokenStream := (lexTokens query).map fun r =>
    match r with
    | .ok t => .ok t
    | .error e => .error (.Lexing e)
  let l ← tpConsumeAKeyword .Select l
  let (columns, l) ← parseColumnsLoop (l.length + 1) l []
  let l ← tpConsumeAKeyword .From l
  let (table_name, l) ← tpConsumeString l
  let (table_identifier, l) ←
    if tpIsFinished l then pure ((none : Option String), l)
    else do
      let b ← tpIsString l
      if b then do
        let (s, l) ← tpConsumeString l
        pure (some s, l)
      else pure ((none : Option String), l)
  if tpIsFinished l then
    pure ⟨table_name, table_identifier, columns, none⟩
  else do
    let (bw, l) ← tpMaybeConsumeAKeyword .Where l
    if bw then do
      let (column, l) ← parse_column_reference l
      let (opc, l) ← tpConsumeCharacter l
      let op ← opTryFromCharacter opc
      let (value, _) ← tpConsumeString l
      pure ⟨table_name, table_identifier, columns, some (.Single ⟨column, op, value⟩)⟩
    else
      pure ⟨table_name, table_identifier, columns, none⟩

/-! ## Database and executor (src/table/db.rs) -/

structure Database where
  descriptor : DatabaseDescriptor
  table_stores : List (String × FileStoreState)
deriving DecidableEq

def Database.new (db_name : String) : Database := ⟨⟨db_name, []⟩, []⟩

def assocPut {β : Type} : List (String × β) → String → β → List (String × β)
  | [], k, v => [(k, v)]
  | (k', v') :: rest, k, v =>
    if k' = k then (k, v) :: rest else (k', v') :: assocPut rest k v

/-- `Database::add_table` (src/table/db.rs:23-30).  `FileByteStore::new` is
modelled against a fresh filesystem (no pre-existing table file), so the
created store is an empty file with a zeroed header.  On a duplicate name the
source has already replaced the store before erroring; the claims never
exercise that path and the model simply returns the error. -/
def Database.add_table (db : Database) (descriptor : TableDescriptor) :
    Except String Database :=
  let stores := assocPut db.table_stores descriptor.table_name FileByteStore.freshFile
  if db.descriptor.tables.any (fun t => t.table_name == descriptor.table_name) then
    .error ("Cannot add table with duplicate name " ++ descriptor.table_name)
  else
    .ok ⟨⟨db.descriptor.db_name, db.descriptor.tables ++ [descriptor]⟩, stores⟩

/-- `Database::insert_columns` (src/table/db.rs:32-37); the `expect` on a
missing backing store is a crash (message kept verbatim, typo included). -/
def Database.insert_columns (db : Database) (table_name : String)
    (columns : List (String × String)) : Except RunErr (Except String Database) :=
  match db.descriptor.table_with_name table_name with
  | none => .ok (.error ("No table " ++ table_name ++ " exists"))
  | some td =>
    match db.table_stores.lookup table_name with
    | none => .error (.crash "Table backig store should be present here")
    | some st =>
      match FileByteStore.insert st td columns with
      | (.ok _, st') => .ok (.ok ⟨db.descriptor, assocPut db.table_stores table_name st'⟩)
      | (.error e, _) => .ok (.error e)

/-- The WHERE conjunction of `Database::query`: `conditions.all(is_true)`
over the row buffer, short-circuiting at the first false. -/
def evalConditions (conds : List WhereCondition) (row : List Nat) : Except RunErr Bool :=
  match conds with
  | [] => .ok true
  | wc :: rest =>
    match wc.comparison.is_true (row.drop wc.column.offset) with
    | .error e => .error e
    | .ok false => .ok false
    | .ok true => evalConditions rest row

/-- The projection of `Database::query`: decode every selected column at its
offset, `unwrap`ping decode failures. -/
def projectColumns (cols : List TableColumn) (row : List Nat) :
    Except RunErr (List (String × String)) :=
  match cols with
  | [] => .ok []
  | c :: rest =>
    match c.datatype.parse_bytes (row.drop c.offset) with
    | .error e => .error e
    | .ok (.error _) => .error (.crash "called Result unwrap on an Err value")
    | .ok (.ok v) => (projectColumns rest row).map (fun r => (c.name, v) :: r)

/-- The scan loop of `Database::query` (src/table/db.rs:59-80).  A read
returns `min row_size remaining` bytes; zero bytes ends the scan, a short
read is the partial-row `panic!`, otherwise the row is decoded.  The row id
is decoded through `parse_bytes` and re-parsed with `str::parse::<u64>`,
both `unwrap`ped. -/
def queryLoopAux (q : SelectQuery) (row_size : Nat) :
    Nat → List Nat → Except RunErr (List (Nat × List (String × String)))
  | 0, _ => .ok []
  | fuel + 1, body =>
  if min row_size body.length = 0 then .ok []
  else if min row_size body.length ≠ row_size then
    .error (.crash "woah buddy, file size aint right")
  else
    let row := body.take row_size
    match q.table.id_column? with
    | none => .error (.crash "called Option unwrap on a None value")
    | some idc =>
      match idc.datatype.parse_bytes (row.drop idc.offset) with
      | .error e => .error e
      | .ok (.error _) => .error (.crash "called Result unwrap on an Err value")
      | .ok (.ok sid) =>
        match rustParseUnsigned (2 ^ 64) sid with
        | none => .error (.crash "called Result unwrap on an Err value")
        | some row_id =>
          let cond :=
            match q.where_predicate with
            | some p => evalConditions p.conditions row
            | none => .ok true
          match cond with
          | .error e => .error e
          | .ok false => queryLoopAux q row_size fuel (body.drop row_size)
          | .ok true =>
            match projectColumns q.columns row with
            | .error e => .error e
            | .ok out2 =>
              match queryLoopAux q row_size fuel (body.drop row_size) with
              | .error e => .error e
              | .ok out => .ok ((row_id, out2) :: out)

/-- The scan loop with fuel `body.length + 1`, which always suffices: every
iteration that recurses drops `row_size ≥ 1` bytes from the body. -/
def queryLoop (q : SelectQuery) (row_size : Nat) (body : List Nat) :
    Except RunErr (List (Nat × List (String × String))) :=
  queryLoopAux q row_size (body.length + 1) body

/-- `Database::query` (src/table/db.rs:47-83): locate the backing store
(`expect`ing it to exist) and run the scan loop over its byte stream. -/
def Database.query (db : Database) (q : SelectQuery) :
    Except RunErr (List (Nat × List (String × String))) :=
  match db.table_stores.lookup q.table.table_name with
  | none => .error (.crash "backing store here shold be populated")
  | some st => queryLoop q q.table.total_row_size st.body

/-- Offsets are the running prefix sums of the declared widths starting at
`off` (the invariant `TableDescriptor::new` establishes). -/
def wfOffsets : Nat → List TableColumn → Prop
  | _, [] => True
  | off, c :: rest => c.offset = off ∧ wfOffsets (off + c.datatype.size_in_bytes) rest

/-- The sum of the declared column widths (identically
`TableDescriptor.total_size` over a column list). -/
def colsSizes (l : List TableColumn) : Nat :=
  (l.map (fun c => c.datatype.size_in_bytes)).sum

/-- The token the source's alphabetic branch emits for a scanned run:
`Keyword` when `TryFrom<&str>` recognises it, else `String(run)` (the
`unwrap_or_else` at src/table/query/lex.rs:317-319). -/
def tokenOfRun (run : List Char) : QueryToken :=
  match KeywordToken.try_from ⟨run⟩ with
  | some kw => .Keyword kw
  | none => .Str ⟨run⟩

/-! ## Concrete scenario fixtures (src/main.rs `run_db`) -/

def booksColumns : List (String × ColumnDataType) :=
  [("id", .SerialId), ("author", .Byte 64), ("title", .Byte 64),
   ("year_published", .Int32), ("us_based_publisher", .Boolean)]

def booksTable : TableDescriptor := ⟨"books", buildCols 0 booksColumns⟩

def booksCatalog : DatabaseDescriptor := ⟨"my_db", [booksTable]⟩

def scenario1Insert : List (String × String) :=
  [("author", "Billy Bob"), ("title", "How to Sting Like a Bee"),
   ("year_published", "1932")]

/-- Fresh database, `books` table added, the single scenario-1 row
inserted. -/
def scenario1Db : Except RunErr (Except String Database) :=
  match (Database.new "my_db").add_table booksTable with
  | .error e => .ok (.error e)
  | .ok db1 => db1.insert_columns "books" scenario1Insert

/-- scenario-1 state, then parse `qtext` with `SelectQuery::parse_query_string`
and execute it with `Database::query` (outer layer: modelled panics). -/
def scenario1Query (qtext : String) :
    Except RunErr (Except String (List (Nat × List (String × String)))) :=
  match scenario1Db with
  | .error e => .error e
  | .ok (.error e) => .ok (.error e)
  | .ok (.ok db2) =>
    match SelectQuery.parse_query_string qtext db2.descriptor with
    | .error e => .error e
    | .ok (.error e) => .ok (.error e)
    | .ok (.ok q) => (db2.query q).map .ok

def uuidTable : TableDescriptor := ⟨"t", buildCols 0 [("id", .SerialId), ("u", .UuidV4)]⟩

def idOnlyTable : TableDescriptor := ⟨"t1", buildCols 0 [("id", .SerialId)]⟩

/-- A `books` database whose backing file carries an arbitrary body. -/
def booksDbWithBody (c : Nat) (body : List Nat) : Database :=
  ⟨booksCatalog, [("books", ⟨c, body⟩)]⟩

/-- A typed query against `books` projecting only the id column, no WHERE. -/
def booksQueryIdOnly : SelectQuery :=
  ⟨booksTable, [⟨"id", .SerialId, 0⟩], none⟩

end Kronk

namespace Kronk

/-! # Claim theorems -/

/-- Claim C4 (code bug): the length of `get_insertion_bytes` does not match
a row size computed with a 16-byte UuidV4.  The source declares
`UuidV4 => 128` in `size_in_bytes`, zero-fills an unsupplied uuid column
with 128 bytes (total 136 here), yet writes only the 16 parsed bytes for a
supplied uuid (total 24 here) — so a supplied uuid never matches the
declared row size either. -/
theorem C4_code_eval :
    TableDescriptor.new "t" [("id", ColumnDataType.SerialId), ("u", ColumnDataType.UuidV4)] =
      .ok uuidTable ∧
    (uuidTable.get_insertion_bytes 0 []).map List.length = .ok 136 ∧
    (uuidTable.get_insertion_bytes 0
      [("u", "67e55044-10b1-426f-9247-bb680e5fe0c8")]).map List.length = .ok 24 ∧
    uuidTable.total_row_size = 136 ∧
    ColumnDataType.UuidV4.size_in_bytes = 128 := by
  refine ⟨by decide, by decide, by decide, by decide, by decide⟩

/-- Claim C8 (code bug): `to_native_type` slices `self[..N]` before checking
the length, so a short buffer panics (modelled by `crash`) instead of
returning `InsufficientByteBufferSize(needed, got)`; buffers of at least the
type's width decode little-endian from the prefix. -/
theorem C8_code_eval :
    toNativeTypeU32 [0, 1] = .error (.crash "range end index 4 out of range") ∧
    toNativeTypeU32 [0, 1] ≠ .ok (.error (.InsufficientByteBufferSize 4 2)) ∧
    toNativeTypeU32 [1, 0, 0, 0, 99] = .ok (.ok 1) ∧
    toNativeTypeI32 [255, 255, 255, 255] = .ok (.ok (-1)) ∧
    toNativeTypeU64 [2, 0, 0, 0, 0, 0, 0, 0, 7] = .ok (.ok 2) ∧
    toNativeTypeI64 [0, 1] = .error (.crash "range end index 8 out of range") := by
  refine ⟨by decide, by decide, by decide, by decide, by decide, by decide⟩

/-- Claim C10 (confirmed): Boolean decoding is total on non-empty buffers —
any nonzero first byte decodes to `"true"`, a zero first byte to
`"false"`. -/
theorem C10_boolean_total (b : Nat) (rest : List Nat) (_hb : b < 256) :
    ColumnDataType.Boolean.parse_bytes (b :: rest) =
      .ok (.ok (if b ≠ 0 then "true" else "false")) := rfl

/-- Witness for C10 at the byte 7 (a value Boolean encoding never
produces). -/
theorem C10_boolean_total_witness :
    ColumnDataType.Boolean.parse_bytes [7, 9] = .ok (.ok "true") := by
  have h := C10_boolean_total 7 [9] (by decide)
  simpa using h

/-- Claim C6, counterexample: the claim's own instance does not even lex —
`year_published` stops the lexer at the underscore — so `RawParse::parse_string`
returns the lifted lexing error, not a successful parse. -/
theorem C6_counterexample :
    RawParse.parse_string
      "select id, title, year_published from books where year_published >= 1930" =
      .error (.Lexing (.UnexpectedCharacter '_')) := by decide

/-- Claim C6, amended: `consume_string` accepts only `String` tokens as the
WHERE value, so a bare `Number` yields `UnexpectedToken(String(""), Number)`;
the same query with the value quoted (a `String` token) parses to a `Single`
comparison carrying the digit text. -/
theorem C6_amended :
    RawParse.parse_string "select id, title, year from books where year >= 1930" =
      .error (.UnexpectedToken (.Str "") (.Num "1930")) ∧
    RawParse.parse_string "select id, title, year from books where year >= \"1930\"" =
      .ok ⟨"books", none,
        [⟨⟨"id", none⟩, none⟩, ⟨⟨"title", none⟩, none⟩, ⟨⟨"year", none⟩, none⟩],
        some (.Single ⟨⟨"year", none⟩, .GreaterEqual, "1930"⟩)⟩ := by
  refine ⟨by decide, by decide⟩

/-- Claim C5, counterexample: `year_published` does not lex as the single
token `String("year_published")`; the alphabetic scan stops at the
underscore and the next step rejects it. -/
theorem C5_counterexample :
    lexTokens "year_published" = [.ok (.Str "year"), .error (.UnexpectedCharacter '_')] := by
  decide

/-- Claim C1, counterexample: `SelectQuery::parse_query_string` splits on
whitespace only, so in the scenario-1 query text the commas stay glued to
the column names and resolution fails with `Missing column!` instead of
succeeding. -/
theorem C1_counterexample :
    scenario1Query "select id, author, year_published from books" =
      .ok (.error "Missing column!") := by decide

/-- Claim C1, amended: with the commas removed (the tokens of this parser
are whitespace-separated) the query panics on the `tokens[(4+n)..]` slice
because it has no WHERE clause; adding a tautological WHERE produces exactly
the row the claim expects: id 0 with projections id/author/year_published. -/
theorem C1_amended :
    scenario1Query "select id author year_published from books" =
      .error (.crash "range start index out of range for slice") ∧
    scenario1Query "select id author year_published from books where year_published >= 0" =
      .ok (.ok [(0, [("id", "0"), ("author", "Billy Bob"), ("year_published", "1932")])]) := by
  refine ⟨by decide, by decide⟩

/-! ### One-step lexer lemmas (for C5) -/

theorem drop_takeWhile_length {α : Type} (p : α → Bool) :
    ∀ l : List α, l.drop ((l.takeWhile p).length) = l.dropWhile p := by
  intro l
  induction l with
  | nil => rfl
  | cons x xs ih =>
    by_cases hx : p x <;> simp [List.takeWhile_cons, List.dropWhile_cons, hx, ih]

/-- Claim C5, amended: when the scanner stands at an alphabetic character
(after skipping whitespace), it consumes the maximal run of *alphabetic*
characters only — digits and underscores terminate the run — and emits one
token for the run: `Keyword` if the run is exactly select/from/where/as,
otherwise `String(run)`. -/
theorem C5_amended (cs : List Char) (i : Nat) (c : Char)
    (hc : ((cs.drop i).dropWhile rustIsWhitespace).head? = some c)
    (halpha : rustIsAlphabetic c = true) :
    lexNext ⟨cs, i, none⟩ =
      (some (.ok (tokenOfRun
          (((cs.drop i).dropWhile rustIsWhitespace).takeWhile rustIsAlphabetic))),
        ⟨cs, i + ((cs.drop i).takeWhile rustIsWhitespace).length +
          (((cs.drop i).dropWhile rustIsWhitespace).takeWhile rustIsAlphabetic).length,
          none⟩) := by
  have hdrop : cs.drop (i + ((cs.drop i).takeWhile rustIsWhitespace).length) =
      (cs.drop i).dropWhile rustIsWhitespace := by
    rw [← List.drop_drop, drop_takeWhile_length]
  have hcur : (⟨cs, i + ((cs.drop i).takeWhile rustIsWhitespace).length, none⟩ :
      TokenIterator).current_char = some c := by
    unfold TokenIterator.current_char
    rw [List.get?_eq_getElem?, ← List.head?_drop, hdrop]
    exact hc
  unfold lexNext
  simp only [TokenIterator.advance_while, TokenIterator.next_alphabetic_string,
    Option.isSome_none, Bool.false_eq_true, if_false, hcur, hdrop, halpha, if_true]
  unfold tokenOfRun
  cases htf : KeywordToken.try_from
      ⟨((cs.drop i).dropWhile rustIsWhitespace).takeWhile rustIsAlphabetic⟩ with
  | none => simp [htf, Nat.add_assoc]
  | some kw => simp [htf, Nat.add_assoc]

/-- Witness for C5: lexing from the start of `"from x"` consumes exactly
`from` and emits the keyword token. -/
theorem C5_amended_witness :
    lexNext ⟨("from x").data, 0, none⟩ =
      (some (.ok (.Keyword .From)), ⟨("from x").data, 4, none⟩) := by
  have h := C5_amended ("from x").data 0 'f' (by decide) (by decide)
  simpa using h

/-! ### Little-endian round-trip lemmas (for C9) -/

theorem toLe_length : ∀ w n, (toLe w n).length = w := by
  intro w
  induction w with
  | zero => intro n; rfl
  | succ k ih => intro n; simp [toLe, ih]

theorem fromLe_toLe : ∀ w n, fromLe (toLe w n) = n % 256 ^ w := by
  intro w
  induction w with
  | zero => intro n; simp [toLe, fromLe, Nat.mod_one]
  | succ k ih =>
    intro n
    calc fromLe (toLe (k + 1) n)
        = n % 256 + 256 * ((n / 256) % 256 ^ k) := by simp [toLe, fromLe, ih]
      _ = n % 256 ^ (k + 1) := by
          rw [pow_succ, mul_comm (256 ^ k) 256, Nat.mod_mul]

theorem take_toLe_append (w n : Nat) (extra : List Nat) :
    (toLe w n ++ extra).take w = toLe w n := by
  have h := List.take_left (toLe w n) extra
  rwa [toLe_length] at h

/-! ### Store-scan lemmas (for C2) -/

theorem chunksOfAux_fuel {α : Type} (k : Nat) : ∀ (n : Nat) (l : List α) (f : Nat),
    l.length ≤ n → l.length ≤ f →
    chunksOfAux k f l = chunksOfAux k l.length l := by
  intro n
  induction n with
  | zero =>
    intro l f h1 _
    have hl : l = [] := List.eq_nil_of_length_eq_zero (by omega)
    subst hl
    cases f <;> rfl
  | succ m ih =>
    intro l f h1 h2
    cases l with
    | nil => cases f <;> rfl
    | cons x xs =>
      cases f with
      | zero => simp at h2
      | succ g =>
        by_cases hk : k = 0
        · subst hk
          rfl
        · have hlen : ((x :: xs).drop k).length = xs.length + 1 - k := by simp
          have h3 : ((x :: xs).drop k).length ≤ m := by
            simp only [List.length_cons] at h1
            omega
          have h4 : ((x :: xs).drop k).length ≤ g := by
            simp only [List.length_cons] at h2
            omega
          have e1 := ih ((x :: xs).drop k) g h3 h4
          have e2 := ih ((x :: xs).drop k) xs.length h3 (by omega)
          simp only [chunksOfAux, hk, if_false, List.length_cons]
          rw [e1, e2]

theorem chunksOf_cons_eq {α : Type} (k : Nat) (x : α) (xs : List α) (hk : k ≠ 0) :
    chunksOf k (x :: xs) = (x :: xs).take k :: chunksOf k ((x :: xs).drop k) := by
  unfold chunksOf
  conv_lhs => rw [List.length_cons]
  simp only [chunksOfAux, hk, if_false]
  congr 1
  exact chunksOfAux_fuel k xs.length _ _ (by simp; omega) (by simp; omega)

theorem chunksOf_flatten {α : Type} (k : Nat) (hk : 0 < k) :
    ∀ rows : List (List α), (∀ r ∈ rows, r.length = k) →
      chunksOf k rows.flatten = rows := by
  intro rows
  induction rows with
  | nil => intro _; rfl
  | cons r rest ih =>
    intro h
    have hr : r.length = k := h r (List.mem_cons_self _ _)
    have hrk : r ≠ [] := by
      intro hnil
      rw [hnil] at hr
      simp at hr
      omega
    obtain ⟨y, ys, rfl⟩ := List.exists_cons_of_ne_nil hrk
    rw [List.flatten_cons, List.cons_append, chunksOf_cons_eq k _ _ (by omega)]
    rw [← List.cons_append]
    have htake : ((y :: ys) ++ rest.flatten).take k = y :: ys := by
      rw [← hr]
      exact List.take_left _ _
    have hdrop : ((y :: ys) ++ rest.flatten).drop k = rest.flatten := by
      rw [← hr]
      exact List.drop_left _ _
    rw [htake, hdrop, ih fun x hx => h x (List.mem_cons_of_mem _ hx)]

theorem expectHyphen_length (l : List Char) (r : List Char)
    (h : expectHyphen l = some r) : l.length = r.length + 1 := by
  cases l with
  | nil => simp [expectHyphen] at h
  | cons c rest =>
    simp only [expectHyphen] at h
    by_cases hc : c = '-'
    · rw [if_pos hc] at h
      cases h
      simp
    · rw [if_neg hc] at h
      cases h

theorem hexPairs_le : ∀ (n : Nat) (l : List Char) (bs : List Nat), l.length ≤ n →
    hexPairs l = some bs → bs.length ≤ l.length := by
  intro n
  induction n with
  | zero =>
    intro l bs h1 h2
    have hl : l = [] := List.eq_nil_of_length_eq_zero (by omega)
    subst hl
    simp [hexPairs] at h2
    subst h2
    simp
  | succ m ih =>
    intro l bs h1 h2
    match l with
    | [] =>
      simp [hexPairs] at h2
      subst h2
      simp
    | [c] => simp [hexPairs] at h2
    | c1 :: c2 :: rest =>
      simp only [hexPairs, Option.bind_eq_bind] at h2
      cases hv1 : hexVal c1 with
      | none => rw [hv1] at h2; simp at h2
      | some d1 =>
        rw [hv1] at h2
        cases hv2 : hexVal c2 with
        | none => rw [hv2] at h2; simp at h2
        | some d2 =>
          rw [hv2] at h2
          cases hrest : hexPairs rest with
          | none => rw [hrest] at h2; simp at h2
          | some tail =>
            rw [hrest] at h2
            simp only [Option.some_bind, Option.pure_def, Option.some.injEq] at h2
            subst h2
            have := ih rest tail (by simp at h1; omega) hrest
            simp
            omega

theorem rustParseUuid_le (s : String) (bs : List Nat)
    (h : rustParseUuid s = some bs) : bs.length ≤ 128 := by
  unfold rustParseUuid at h
  by_cases h36 : s.data.length ≠ 36
  · rw [if_pos h36] at h
    cases h
  · rw [if_neg h36] at h
    simp only [Option.bind_eq_bind] at h
    cases hp1 : hexPairs (s.data.take 8) with
    | none => rw [hp1] at h; simp at h
    | some p1 =>
    rw [hp1] at h
    simp only [Option.some_bind] at h
    cases hr1 : expectHyphen (s.data.drop 8) with
    | none => rw [hr1] at h; simp at h
    | some r1 =>
    rw [hr1] at h
    simp only [Option.some_bind] at h
    cases hp2 : hexPairs (r1.take 4) with
    | none => rw [hp2] at h; simp at h
    | some p2 =>
    rw [hp2] at h
    simp only [Option.some_bind] at h
    cases hr2 : expectHyphen (r1.drop 4) with
    | none => rw [hr2] at h; simp at h
    | some r2 =>
    rw [hr2] at h
    simp only [Option.some_bind] at h
    cases hp3 : hexPairs (r2.take 4) with
    | none => rw [hp3] at h; simp at h
    | some p3 =>
    rw [hp3] at h
    simp only [Option.some_bind] at h
    cases hr3 : expectHyphen (r2.drop 4) with
    | none => rw [hr3] at h; simp at h
    | some r3 =>
    rw [hr3] at h
    simp only [Option.some_bind] at h
    cases hp4 : hexPairs (r3.take 4) with
    | none => rw [hp4] at h; simp at h
    | some p4 =>
    rw [hp4] at h
    simp only [Option.some_bind] at h
    cases hr4 : expectHyphen (r3.drop 4) with
    | none => rw [hr4] at h; simp at h
    | some r4 =>
    rw [hr4] at h
    simp only [Option.some_bind] at h
    cases hp5 : hexPairs r4 with
    | none => rw [hp5] at h; simp at h
    | some p5 =>
    rw [hp5] at h
    simp only [Option.some_bind, Option.pure_def, Option.some.injEq] at h
    subst h
    have l1 := hexPairs_le _ _ _ le_rfl hp1
    have l2 := hexPairs_le _ _ _ le_rfl hp2
    have l3 := hexPairs_le _ _ _ le_rfl hp3
    have l4 := hexPairs_le _ _ _ le_rfl hp4
    have l5 := hexPairs_le _ _ _ le_rfl hp5
    have e1 := expectHyphen_length _ _ hr1
    have e2 := expectHyphen_length _ _ hr2
    have e3 := expectHyphen_length _ _ hr3
    have e4 := expectHyphen_length _ _ hr4
    simp only [List.length_take, List.length_drop, List.length_append] at *
    omega

theorem total_row_size_eq (d : TableDescriptor) :
    d.total_row_size = colsSizes d.columns := rfl

/-- Every byte vector `parse_string` accepts is at most the declared column
width; it is exactly the width except for `UuidV4` (16 parsed bytes against
a declared 128). -/
theorem parse_string_length (t : ColumnDataType) (s : String) (bs : List Nat)
    (h : t.parse_string s = .ok bs) :
    bs.length ≤ t.size_in_bytes ∧
      (bs.length = t.size_in_bytes ∨ t = ColumnDataType.UuidV4) := by
  cases t with
  | SerialId => simp [ColumnDataType.parse_string] at h
  | Boolean =>
    simp only [ColumnDataType.parse_string] at h
    by_cases h1 : s = "true"
    · rw [if_pos h1] at h
      cases h
      simp [ColumnDataType.size_in_bytes]
    · rw [if_neg h1] at h
      by_cases h2 : s = "false"
      · rw [if_pos h2] at h
        cases h
        simp [ColumnDataType.size_in_bytes]
      · rw [if_neg h2] at h
        cases h
  | Int32 =>
    simp only [ColumnDataType.parse_string] at h
    cases hp : rustParseSigned (2 ^ 31) s with
    | none => rw [hp] at h; cases h
    | some v =>
      rw [hp] at h
      cases h
      simp [ColumnDataType.size_in_bytes, toLe_length]
  | UInt32 =>
    simp only [ColumnDataType.parse_string] at h
    cases hp : rustParseUnsigned (2 ^ 32) s with
    | none => rw [hp] at h; cases h
    | some v =>
      rw [hp] at h
      cases h
      simp [ColumnDataType.size_in_bytes, toLe_length]
  | Int64 =>
    simp only [ColumnDataType.parse_string] at h
    cases hp : rustParseSigned (2 ^ 63) s with
    | none => rw [hp] at h; cases h
    | some v =>
      rw [hp] at h
      cases h
      simp [ColumnDataType.size_in_bytes, toLe_length]
  | UInt64 =>
    simp only [ColumnDataType.parse_string] at h
    cases hp : rustParseUnsigned (2 ^ 64) s with
    | none => rw [hp] at h; cases h
    | some v =>
      rw [hp] at h
      cases h
      simp [ColumnDataType.size_in_bytes, toLe_length]
  | UuidV4 =>
    simp only [ColumnDataType.parse_string] at h
    cases hp : rustParseUuid s with
    | none => rw [hp] at h; cases h
    | some u =>
      rw [hp] at h
      cases h
      exact ⟨rustParseUuid_le s _ hp, Or.inr rfl⟩
  | Byte i =>
    simp only [ColumnDataType.parse_string] at h
    by_cases hl : (strBytes s).length + 1 ≥ i
    · rw [if_pos hl] at h
      cases h
    · rw [if_neg hl] at h
      cases h
      have hlen : ((strBytes s) ++ List.replicate (i - (strBytes s).length) 0).length = i := by
        simp [List.length_append, List.length_replicate]
        omega
      rw [hlen]
      exact ⟨le_rfl, Or.inl rfl⟩

/-- One-step unfolding of the insertion-byte loop: serial-id column. -/
theorem go_cons_serial (id : Nat) (cols : List (String × String)) (c : TableColumn)
    (rest : List TableColumn)
    (hser : (c.datatype == ColumnDataType.SerialId) = true) :
    insertionBytesGo id cols (c :: rest) =
      Except.map (fun r => toLe 8 id ++ r) (insertionBytesGo id cols rest) := by
  simp only [insertionBytesGo]
  rw [if_pos hser]

/-- One-step unfolding of the insertion-byte loop: non-serial column with no
supplied value (zero fill). -/
theorem go_cons_none (id : Nat) (cols : List (String × String)) (c : TableColumn)
    (rest : List TableColumn)
    (hser : (c.datatype == ColumnDataType.SerialId) = false)
    (hf : cols.find? (fun cc => cc.1 == c.name) = none) :
    insertionBytesGo id cols (c :: rest) =
      Except.map (fun r => List.replicate c.datatype.size_in_bytes 0 ++ r)
        (insertionBytesGo id cols rest) := by
  simp only [insertionBytesGo]
  rw [if_neg (by simp [hser]), hf]

/-- One-step unfolding of the insertion-byte loop: non-serial column with a
supplied textual value. -/
theorem go_cons_some (id : Nat) (cols : List (String × String)) (c : TableColumn)
    (rest : List TableColumn) (cc0 : String × String)
    (hser : (c.datatype == ColumnDataType.SerialId) = false)
    (hf : cols.find? (fun cc => cc.1 == c.name) = some cc0) :
    insertionBytesGo id cols (c :: rest) =
      Except.bind (c.datatype.parse_string cc0.2) (fun parsed =>
        Except.bind (insertionBytesGo id cols rest)
          (fun r => Except.ok (parsed ++ r))) := by
  simp only [insertionBytesGo]
  rw [if_neg (by simp [hser]), hf]
  rfl

theorem go_len_le (id : Nat) (cols : List (String × String)) :
    ∀ (l : List TableColumn) (r : List Nat),
      insertionBytesGo id cols l = .ok r → r.length ≤ colsSizes l := by
  intro l
  induction l with
  | nil => intro r h; cases h; simp [colsSizes]
  | cons c rest ih =>
    intro r h
    by_cases hser : (c.datatype == ColumnDataType.SerialId) = true
    · rw [go_cons_serial id cols c rest hser] at h
      cases hr : insertionBytesGo id cols rest with
      | error e => rw [hr] at h; simp only [Except.map] at h; cases h
      | ok rr =>
        rw [hr] at h
        simp only [Except.map] at h
        cases h
        have hrec := ih rr hr
        have hserial : c.datatype = ColumnDataType.SerialId := by simpa using hser
        have h8 : c.datatype.size_in_bytes = 8 := by rw [hserial]; rfl
        simp only [colsSizes, List.map_cons, List.sum_cons, List.length_append,
          toLe_length, h8]
        simp only [colsSizes] at hrec
        omega
    · have hserF : (c.datatype == ColumnDataType.SerialId) = false := by
        simpa using hser
      cases hf : cols.find? (fun cc => cc.1 == c.name) with
      | none =>
        rw [go_cons_none id cols c rest hserF hf] at h
        cases hr : insertionBytesGo id cols rest with
        | error e => rw [hr] at h; simp only [Except.map] at h; cases h
        | ok rr =>
          rw [hr] at h
          simp only [Except.map] at h
          cases h
          have hrec := ih rr hr
          simp only [colsSizes, List.map_cons, List.sum_cons, List.length_append,
            List.length_replicate]
          simp only [colsSizes] at hrec
          omega
      | some cc0 =>
        rw [go_cons_some id cols c rest cc0 hserF hf] at h
        cases hp : c.datatype.parse_string cc0.2 with
        | error e => rw [hp] at h; simp only [Except.bind] at h; cases h
        | ok parsed =>
          rw [hp] at h
          simp only [Except.bind] at h
          cases hr : insertionBytesGo id cols rest with
          | error e => rw [hr] at h; simp only [Except.bind] at h; cases h
          | ok rr =>
            rw [hr] at h
            simp only [Except.bind] at h
            cases h
            have hrec := ih rr hr
            have hpl := (parse_string_length _ _ _ hp).1
            simp only [colsSizes, List.map_cons, List.sum_cons, List.length_append]
            simp only [colsSizes] at hrec
            omega

theorem wfOffsets_le : ∀ (l : List TableColumn) (off : Nat), wfOffsets off l →
    ∀ c ∈ l, off ≤ c.offset := by
  intro l
  induction l with
  | nil => intro off _ c hc; simp at hc
  | cons x xs ih =>
    intro off hwf c hc
    obtain ⟨hx, hrest⟩ := hwf
    rcases List.mem_cons.mp hc with rfl | hc'
    · omega
    · have := ih (off + x.datatype.size_in_bytes) hrest c hc'
      omega

/-- When the loop succeeds with a vector of exactly the declared total size,
the eight bytes at the serial-id column's (relative) offset are the
little-endian id. -/
theorem go_window (id : Nat) (cols : List (String × String)) :
    ∀ (l : List TableColumn) (off : Nat) (bytes : List Nat),
      wfOffsets off l →
      insertionBytesGo id cols l = .ok bytes →
      bytes.length = colsSizes l →
      ∀ idc, l.find? (fun c => c.datatype == ColumnDataType.SerialId) = some idc →
        (bytes.drop (idc.offset - off)).take 8 = toLe 8 id := by
  intro l
  induction l with
  | nil => intro off bytes _ _ _ idc hfind; simp at hfind
  | cons c rest ih =>
    intro off bytes hwf hgo hlen idc hfind
    obtain ⟨hoff, hwfrest⟩ := hwf
    by_cases hser : (c.datatype == ColumnDataType.SerialId) = true
    · rw [List.find?_cons_of_pos (p := fun c => c.datatype == ColumnDataType.SerialId) rest hser] at hfind
      cases hfind
      rw [go_cons_serial id cols c rest hser] at hgo
      cases hr : insertionBytesGo id cols rest with
      | error e => rw [hr] at hgo; simp only [Except.map] at hgo; cases hgo
      | ok rr =>
        rw [hr] at hgo
        simp only [Except.map] at hgo
        cases hgo
        rw [hoff, Nat.sub_self, List.drop_zero]
        exact take_toLe_append 8 id rr
    · rw [List.find?_cons_of_neg (p := fun c => c.datatype == ColumnDataType.SerialId) rest hser] at hfind
      have hmem := List.mem_of_find?_eq_some hfind
      have hge : off + c.datatype.size_in_bytes ≤ idc.offset :=
        wfOffsets_le rest _ hwfrest idc hmem
      have hserF : (c.datatype == ColumnDataType.SerialId) = false := by
        simpa using hser
      cases hf : cols.find? (fun cc => cc.1 == c.name) with
      | none =>
        rw [go_cons_none id cols c rest hserF hf] at hgo
        cases hr : insertionBytesGo id cols rest with
        | error e => rw [hr] at hgo; simp only [Except.map] at hgo; cases hgo
        | ok rr =>
          rw [hr] at hgo
          simp only [Except.map] at hgo
          cases hgo
          have hrr_le := go_len_le id cols rest rr hr
          have hrr : rr.length = colsSizes rest := by
            simp only [List.length_append, List.length_replicate, colsSizes,
              List.map_cons, List.sum_cons] at hlen
            simp only [colsSizes] at hrr_le ⊢
            omega
          have hk : idc.offset - off =
              (List.replicate c.datatype.size_in_bytes (0 : Nat)).length +
                (idc.offset - (off + c.datatype.size_in_bytes)) := by
            simp only [List.length_replicate]
            omega
          rw [hk, ← List.drop_drop, List.drop_left]
          exact ih (off + c.datatype.size_in_bytes) rr hwfrest hr hrr idc hfind
      | some cc0 =>
        rw [go_cons_some id cols c rest cc0 hserF hf] at hgo
        cases hp : c.datatype.parse_string cc0.2 with
        | error e => rw [hp] at hgo; simp only [Except.bind] at hgo; cases hgo
        | ok parsed =>
          rw [hp] at hgo
          simp only [Except.bind] at hgo
          cases hr : insertionBytesGo id cols rest with
          | error e => rw [hr] at hgo; simp only [Except.bind] at hgo; cases hgo
          | ok rr =>
            rw [hr] at hgo
            simp only [Except.bind] at hgo
            cases hgo
            have hrr_le := go_len_le id cols rest rr hr
            have hpl := (parse_string_length _ _ _ hp).1
            have hpe : parsed.length = c.datatype.size_in_bytes ∧
                rr.length = colsSizes rest := by
              simp only [List.length_append, colsSizes, List.map_cons,
                List.sum_cons] at hlen
              simp only [colsSizes] at hrr_le ⊢
              omega
            have hk : idc.offset - off =
                parsed.length + (idc.offset - (off + c.datatype.size_in_bytes)) := by
              omega
            rw [hk, ← List.drop_drop, List.drop_left]
            exact ih (off + c.datatype.size_in_bytes) rr hwfrest hr hpe.2 idc hfind

theorem new_ok (name : String) (spec : List (String × ColumnDataType))
    (d : TableDescriptor) (h : TableDescriptor.new name spec = .ok d) :
    d.columns = buildCols 0 spec ∧ ∃ x ∈ spec, x.2 = ColumnDataType.SerialId := by
  unfold TableDescriptor.new at h
  by_cases hc : (spec.filter fun c => c.2 == ColumnDataType.SerialId).length ≠ 1
  · rw [if_pos hc] at h
    cases h
  · rw [if_neg hc] at h
    cases h
    refine ⟨rfl, ?_⟩
    have hne : (spec.filter fun c => c.2 == ColumnDataType.SerialId) ≠ [] := by
      intro hnil
      rw [hnil] at hc
      simp at hc
    obtain ⟨x, hx⟩ := List.exists_mem_of_ne_nil _ hne
    have hx' := List.mem_filter.mp hx
    exact ⟨x, hx'.1, by simpa using hx'.2⟩

theorem buildCols_wf : ∀ (spec : List (String × ColumnDataType)) (off : Nat),
    wfOffsets off (buildCols off spec) := by
  intro spec
  induction spec with
  | nil => intro off; trivial
  | cons x xs ih => intro off; exact ⟨rfl, ih _⟩

theorem buildCols_find_serial : ∀ (spec : List (String × ColumnDataType)) (off : Nat),
    (∃ x ∈ spec, x.2 = ColumnDataType.SerialId) →
    ∃ idc, (buildCols off spec).find?
      (fun c => c.datatype == ColumnDataType.SerialId) = some idc := by
  intro spec
  induction spec with
  | nil =>
    intro off h
    obtain ⟨x, hx, _⟩ := h
    simp at hx
  | cons y ys ih =>
    intro off h
    by_cases hy : y.2 = ColumnDataType.SerialId
    · refine ⟨⟨y.1, y.2, off⟩, ?_⟩
      unfold buildCols
      rw [List.find?_cons_of_pos _ (by simpa using hy)]
    · obtain ⟨x, hx, hxs⟩ := h
      rcases List.mem_cons.mp hx with rfl | hx'
      · exact absurd hxs hy
      · obtain ⟨idc, hidc⟩ := ih (off + y.2.size_in_bytes) ⟨x, hx', hxs⟩
        refine ⟨idc, ?_⟩
        unfold buildCols
        rw [List.find?_cons_of_neg _ (by simpa using hy)]
        exact hidc

theorem size_le_colsSizes (c : TableColumn) : ∀ l : List TableColumn, c ∈ l →
    c.datatype.size_in_bytes ≤ colsSizes l := by
  intro l
  induction l with
  | nil => intro h; simp at h
  | cons x xs ih =>
    intro h
    rcases List.mem_cons.mp h with rfl | h'
    · simp only [colsSizes, List.map_cons, List.sum_cons]
      omega
    · have := ih h'
      simp only [colsSizes, List.map_cons, List.sum_cons]
      simp only [colsSizes] at this
      omega

theorem fileInsert_ok (st : FileStoreState) (d : TableDescriptor)
    (cols : List (String × String)) (st' : FileStoreState)
    (h : FileByteStore.insert st d cols = (.ok (), st')) :
    ∃ bytes, d.get_insertion_bytes st.id_counter cols = .ok bytes ∧
      bytes.length = d.total_row_size ∧
      st' = ⟨st.id_counter + 1, st.body ++ bytes⟩ := by
  unfold FileByteStore.insert at h
  cases hg : d.get_insertion_bytes st.id_counter cols with
  | error e =>
    rw [hg] at h
    have h2 : ((Except.error e : Except String Unit), st) = (.ok (), st') := h
    injection h2 with h1 _
    cases h1
  | ok bytes =>
    rw [hg] at h
    have h2 : (if bytes.length ≠ d.total_row_size then
        ((Except.error "invalid table insertion" : Except String Unit), st)
      else (Except.ok (), (⟨st.id_counter + 1, st.body ++ bytes⟩ : FileStoreState)))
        = (.ok (), st') := h
    by_cases hl : bytes.length ≠ d.total_row_size
    · rw [if_pos hl] at h2
      injection h2 with h1 _
      cases h1
    · rw [if_neg hl] at h2
      injection h2 with _ h3
      exact ⟨bytes, rfl, not_not.mp hl, h3.symm⟩

theorem memInsert_ok (s : InMemoryByteStore) (d : TableDescriptor)
    (cols : List (String × String)) (s' : InMemoryByteStore)
    (h : s.insert d cols = (.ok (), s')) :
    ∃ bytes, d.get_insertion_bytes s.id_counter cols = .ok bytes ∧
      bytes.length = d.total_row_size ∧
      s' = ⟨s.table_name, s.id_counter + 1, s.mem ++ bytes⟩ := by
  unfold InMemoryByteStore.insert at h
  cases hg : d.get_insertion_bytes s.id_counter cols with
  | error e =>
    rw [hg] at h
    have h2 : ((Except.error e : Except String Unit), s) = (.ok (), s') := h
    injection h2 with h1 _
    cases h1
  | ok bytes =>
    rw [hg] at h
    have h2 : (if bytes.length ≠ d.total_row_size then
        ((Except.error "invalid table insertion" : Except String Unit),
          (⟨s.table_name, s.id_counter + 1, s.mem⟩ : InMemoryByteStore))
      else (Except.ok (),
          (⟨s.table_name, s.id_counter + 1, s.mem ++ bytes⟩ : InMemoryByteStore)))
        = (.ok (), s') := h
    by_cases hl : bytes.length ≠ d.total_row_size
    · rw [if_pos hl] at h2
      injection h2 with h1 _
      cases h1
    · rw [if_neg hl] at h2
      injection h2 with _ h3
      exact ⟨bytes, rfl, not_not.mp hl, h3.symm⟩

theorem fileRun_ids (d : TableDescriptor) (idc : TableColumn)
    (hid : d.columns.find? (fun c => c.datatype == ColumnDataType.SerialId) = some idc)
    (hwf : wfOffsets 0 d.columns) :
    ∀ (inserts : List (List (String × String))) (c : Nat) (b : List Nat)
      (st : FileStoreState),
      fileRunInserts d inserts ⟨c, b⟩ = some st →
      ∃ rows : List (List Nat),
        st.body = b ++ rows.flatten ∧
        rows.length = inserts.length ∧
        (∀ r ∈ rows, r.length = d.total_row_size) ∧
        rows.map (fun r => (r.drop idc.offset).take 8) =
          (List.range inserts.length).map (fun j => toLe 8 (c + j)) := by
  intro inserts
  induction inserts with
  | nil =>
    intro c b st h
    cases h
    exact ⟨[], by simp, by simp, by simp, by simp⟩
  | cons cols rest ih =>
    intro c b st h
    unfold fileRunInserts at h
    rcases hins : FileByteStore.insert ⟨c, b⟩ d cols with ⟨res, st1⟩
    rw [hins] at h
    cases res with
    | error e => simp at h
    | ok u =>
      cases u
      obtain ⟨bytes, hg, hlenb, hst1⟩ := fileInsert_ok ⟨c, b⟩ d cols st1 hins
      subst hst1
      obtain ⟨rows, hbody, hrl, hrlen, hids⟩ := ih (c + 1) (b ++ bytes) st h
      have hwnd : (bytes.drop (idc.offset - 0)).take 8 = toLe 8 c :=
        go_window c cols d.columns 0 bytes hwf hg
          (by rw [hlenb, total_row_size_eq]) idc hid
      simp only [Nat.sub_zero] at hwnd
      refine ⟨bytes :: rows, ?_, by simp [hrl], ?_, ?_⟩
      · rw [hbody, List.flatten_cons, List.append_assoc]
      · intro r hr
        rcases List.mem_cons.mp hr with rfl | hr'
        · exact hlenb
        · exact hrlen r hr'
      · rw [List.map_cons, hids, hwnd, List.length_cons, List.range_succ_eq_map,
          List.map_cons, List.map_map]
        refine congrArg₂ _ (by norm_num) ?_
        refine List.map_congr_left ?_
        intro j _
        simp only [Function.comp_apply]
        congr 1
        omega

theorem memRun_ids (d : TableDescriptor) (idc : TableColumn)
    (hid : d.columns.find? (fun c => c.datatype == ColumnDataType.SerialId) = some idc)
    (hwf : wfOffsets 0 d.columns) :
    ∀ (inserts : List (List (String × String))) (tn : String) (c : Nat) (b : List Nat)
      (s : InMemoryByteStore),
      memRunInserts d inserts ⟨tn, c, b⟩ = some s →
      ∃ rows : List (List Nat),
        s.mem = b ++ rows.flatten ∧
        rows.length = inserts.length ∧
        (∀ r ∈ rows, r.length = d.total_row_size) ∧
        rows.map (fun r => (r.drop idc.offset).take 8) =
          (List.range inserts.length).map (fun j => toLe 8 (c + j)) := by
  intro inserts
  induction inserts with
  | nil =>
    intro tn c b s h
    cases h
    exact ⟨[], by simp, by simp, by simp, by simp⟩
  | cons cols rest ih =>
    intro tn c b s h
    unfold memRunInserts at h
    rcases hins : InMemoryByteStore.insert ⟨tn, c, b⟩ d cols with ⟨res, s1⟩
    rw [hins] at h
    cases res with
    | error e => simp at h
    | ok u =>
      cases u
      obtain ⟨bytes, hg, hlenb, hs1⟩ := memInsert_ok ⟨tn, c, b⟩ d cols s1 hins
      subst hs1
      obtain ⟨rows, hbody, hrl, hrlen, hids⟩ := ih tn (c + 1) (b ++ bytes) s h
      have hwnd : (bytes.drop (idc.offset - 0)).take 8 = toLe 8 c :=
        go_window c cols d.columns 0 bytes hwf hg
          (by rw [hlenb, total_row_size_eq]) idc hid
      simp only [Nat.sub_zero] at hwnd
      refine ⟨bytes :: rows, ?_, by simp [hrl], ?_, ?_⟩
      · rw [hbody, List.flatten_cons, List.append_assoc]
      · intro r hr
        rcases List.mem_cons.mp hr with rfl | hr'
        · exact hlenb
        · exact hrlen r hr'
      · rw [List.map_cons, hids, hwnd, List.length_cons, List.range_succ_eq_map,
          List.map_cons, List.map_map]
        refine congrArg₂ _ (by norm_num) ?_
        refine List.map_congr_left ?_
        intro j _
        simp only [Function.comp_apply]
        congr 1
        omega

theorem scanRowIds_eq (d : TableDescriptor) (idc : TableColumn) (body : List Nat)
    (hid : d.id_column? = some idc) :
    scanRowIds d body =
      (chunksOf d.total_row_size body).map
        (fun r => fromLe ((r.drop idc.offset).take 8)) := by
  unfold scanRowIds
  rw [hid]

/-- Claim C2 (amended): for every schema accepted by `TableDescriptor::new`
and every sequence of n successful inserts against a freshly created store,
a scan returns exactly n rows in insertion order; the file-backed store
(whose fresh header starts the counter at 0) assigns ids 0..n-1 as claimed,
but the in-memory store (whose constructor starts `id_counter` at 1)
assigns ids 1..n. -/
theorem C2_amended :
    (∀ (name : String) (spec : List (String × ColumnDataType)) (d : TableDescriptor)
        (inserts : List (List (String × String))) (st : FileStoreState),
        TableDescriptor.new name spec = .ok d →
        inserts.length ≤ 2 ^ 64 →
        fileRunInserts d inserts FileByteStore.freshFile = some st →
        scanRowIds d st.body = List.range inserts.length) ∧
    (∀ (name : String) (spec : List (String × ColumnDataType)) (d : TableDescriptor)
        (inserts : List (List (String × String))) (s : InMemoryByteStore),
        TableDescriptor.new name spec = .ok d →
        inserts.length < 2 ^ 64 →
        memRunInserts d inserts (InMemoryByteStore.new d) = some s →
        scanRowIds d s.mem = (List.range inserts.length).map (fun j => j + 1)) := by
  constructor
  · intro name spec d inserts st hnew hn hrun
    obtain ⟨hcols, hex⟩ := new_ok name spec d hnew
    obtain ⟨idc, hid⟩ := buildCols_find_serial spec 0 hex
    rw [← hcols] at hid
    have hwf : wfOffsets 0 d.columns := by
      rw [hcols]
      exact buildCols_wf spec 0
    have hidmem := List.mem_of_find?_eq_some hid
    have hser : idc.datatype = ColumnDataType.SerialId := by
      have := List.find?_some hid
      simpa using this
    have h8 : idc.datatype.size_in_bytes = 8 := by rw [hser]; rfl
    have hpos : 0 < d.total_row_size := by
      have hle := size_le_colsSizes idc d.columns hidmem
      rw [total_row_size_eq]
      omega
    obtain ⟨rows, hbody, hrl, hrlen, hids⟩ :=
      fileRun_ids d idc hid hwf inserts 0 [] st hrun
    rw [scanRowIds_eq d idc st.body hid, hbody, List.nil_append,
      chunksOf_flatten d.total_row_size hpos rows hrlen]
    have hsplit : rows.map (fun r => fromLe ((r.drop idc.offset).take 8)) =
        (rows.map (fun r => (r.drop idc.offset).take 8)).map fromLe := by
      rw [List.map_map]
      rfl
    rw [hsplit, hids, List.map_map, ← hrl]
    have hcongr : ∀ j ∈ List.range rows.length,
        (fromLe ∘ fun j => toLe 8 (0 + j)) j = j := by
      intro j hj
      have hj' := List.mem_range.mp hj
      simp only [Function.comp_apply, fromLe_toLe, Nat.zero_add]
      rw [(by norm_num : (256 : Nat) ^ 8 = 2 ^ 64)]
      exact Nat.mod_eq_of_lt (by omega)
    rw [List.map_congr_left hcongr, List.map_id']
  · intro name spec d inserts s hnew hn hrun
    obtain ⟨hcols, hex⟩ := new_ok name spec d hnew
    obtain ⟨idc, hid⟩ := buildCols_find_serial spec 0 hex
    rw [← hcols] at hid
    have hwf : wfOffsets 0 d.columns := by
      rw [hcols]
      exact buildCols_wf spec 0
    have hidmem := List.mem_of_find?_eq_some hid
    have hser : idc.datatype = ColumnDataType.SerialId := by
      have := List.find?_some hid
      simpa using this
    have h8 : idc.datatype.size_in_bytes = 8 := by rw [hser]; rfl
    have hpos : 0 < d.total_row_size := by
      have hle := size_le_colsSizes idc d.columns hidmem
      rw [total_row_size_eq]
      omega
    obtain ⟨rows, hbody, hrl, hrlen, hids⟩ :=
      memRun_ids d idc hid hwf inserts d.table_name 1 [] s hrun
    rw [scanRowIds_eq d idc s.mem hid, hbody, List.nil_append,
      chunksOf_flatten d.total_row_size hpos rows hrlen]
    have hsplit : rows.map (fun r => fromLe ((r.drop idc.offset).take 8)) =
        (rows.map (fun r => (r.drop idc.offset).take 8)).map fromLe := by
      rw [List.map_map]
      rfl
    rw [hsplit, hids, List.map_map, ← hrl]
    have hcongr : ∀ j ∈ List.range rows.length,
        (fromLe ∘ fun j => toLe 8 (1 + j)) j = j + 1 := by
      intro j hj
      have hj' := List.mem_range.mp hj
      simp only [Function.comp_apply, fromLe_toLe]
      rw [(by norm_num : (256 : Nat) ^ 8 = 2 ^ 64)]
      rw [Nat.mod_eq_of_lt (by omega)]
      omega
    rw [List.map_congr_left hcongr]

/-- Witness for `C2_amended` at a one-serial-column table and two empty
inserts: the file store scans ids `[0, 1]`, the in-memory store `[1, 2]`. -/
theorem C2_amended_witness :
    (fileRunInserts idOnlyTable [[], []] FileByteStore.freshFile).map
        (fun st => scanRowIds idOnlyTable st.body) = some [0, 1] ∧
    (memRunInserts idOnlyTable [[], []] (InMemoryByteStore.new idOnlyTable)).map
        (fun s => scanRowIds idOnlyTable s.mem) = some [1, 2] := by
  constructor
  · have hfile : fileRunInserts idOnlyTable [[], []] FileByteStore.freshFile =
        some (⟨2, toLe 8 0 ++ toLe 8 1⟩ : FileStoreState) := by decide
    have h := C2_amended.1 "t1" [("id", ColumnDataType.SerialId)] idOnlyTable
      [[], []] ⟨2, toLe 8 0 ++ toLe 8 1⟩ (by rfl) (by norm_num) hfile
    rw [hfile]
    show some (scanRowIds idOnlyTable
      (⟨2, toLe 8 0 ++ toLe 8 1⟩ : FileStoreState).body) = some [0, 1]
    rw [h]
    rfl
  · have hmem : memRunInserts idOnlyTable [[], []] (InMemoryByteStore.new idOnlyTable) =
        some (⟨"t1", 3, toLe 8 1 ++ toLe 8 2⟩ : InMemoryByteStore) := by decide
    have h := C2_amended.2 "t1" [("id", ColumnDataType.SerialId)] idOnlyTable
      [[], []] ⟨"t1", 3, toLe 8 1 ++ toLe 8 2⟩ (by rfl) (by norm_num) hmem
    rw [hmem]
    show some (scanRowIds idOnlyTable
      (⟨"t1", 3, toLe 8 1 ++ toLe 8 2⟩ : InMemoryByteStore).mem) = some [1, 2]
    rw [h]
    rfl

/-- Claim C2, counterexample: on a freshly created in-memory store the first
successful insert is assigned serial id 1, not 0 (`InMemoryByteStore::new`
initialises `id_counter` to 1), so the scanned row carries id 1. -/
theorem C2_counterexample :
    (InMemoryByteStore.new idOnlyTable).id_counter = 1 ∧
    (memRunInserts idOnlyTable [[]] (InMemoryByteStore.new idOnlyTable)).map
      (fun s => scanRowIds idOnlyTable s.mem) = some [1] := by
  refine ⟨by decide, by decide⟩

/-- Claim C3, counterexample: an in-memory insert whose encoded row length
differs from the declared row size (a supplied uuid: 24 encoded bytes
against a declared 136) returns an error and appends nothing, but the id
counter has still advanced from 1 to 2. -/
theorem C3_counterexample :
    (InMemoryByteStore.new uuidTable).insert uuidTable
        [("u", "67e55044-10b1-426f-9247-bb680e5fe0c8")] =
      (.error "invalid table insertion", ⟨"t", 2, []⟩) := by decide

/-- Unfolding of the in-memory insert as one case split (the source's
mutation order made explicit). -/
theorem mem_insert_eq (d : TableDescriptor) (cols : List (String × String))
    (s : InMemoryByteStore) :
    s.insert d cols =
      match d.get_insertion_bytes s.id_counter cols with
      | .error e => (.error e, s)
      | .ok bytes =>
        if bytes.length ≠ d.total_row_size then
          (.error "invalid table insertion", { s with id_counter := s.id_counter + 1 })
        else
          (.ok (), { s with id_counter := s.id_counter + 1, mem := s.mem ++ bytes }) := rfl

/-- Claim C3, amended: errors never append bytes to either store, and on the
file store they leave the state entirely unchanged; successful inserts append
exactly one `total_row_size`-byte row and advance the counter by one.  But
the in-memory store is *not* atomic on the counter: when the encoded row
length differs from the declared row size, the error is returned with the
counter already advanced (only the encoding-error path leaves it
unchanged). -/
theorem C3_amended (d : TableDescriptor) (cols : List (String × String))
    (s : InMemoryByteStore) (st : FileStoreState) :
    (∀ e, (s.insert d cols).1 = .error e → (s.insert d cols).2.mem = s.mem) ∧
    ((s.insert d cols).1 = .ok () → ∃ bytes,
      d.get_insertion_bytes s.id_counter cols = .ok bytes ∧
      bytes.length = d.total_row_size ∧
      (s.insert d cols).2.mem = s.mem ++ bytes ∧
      (s.insert d cols).2.id_counter = s.id_counter + 1) ∧
    (∀ e, d.get_insertion_bytes s.id_counter cols = .error e →
      s.insert d cols = (.error e, s)) ∧
    (∀ bytes, d.get_insertion_bytes s.id_counter cols = .ok bytes →
      bytes.length ≠ d.total_row_size →
      (s.insert d cols).1 = .error "invalid table insertion" ∧
      (s.insert d cols).2.mem = s.mem ∧
      (s.insert d cols).2.id_counter = s.id_counter + 1) ∧
    (∀ e, (FileByteStore.insert st d cols).1 = .error e →
      (FileByteStore.insert st d cols).2 = st) ∧
    ((FileByteStore.insert st d cols).1 = .ok () → ∃ bytes,
      d.get_insertion_bytes st.id_counter cols = .ok bytes ∧
      bytes.length = d.total_row_size ∧
      (FileByteStore.insert st d cols).2.body = st.body ++ bytes ∧
      (FileByteStore.insert st d cols).2.id_counter = st.id_counter + 1) := by
  refine ⟨?_, ?_, ?_, ?_, ?_, ?_⟩
  · intro e h
    rw [mem_insert_eq] at h ⊢
    cases hins : d.get_insertion_bytes s.id_counter cols with
    | error e' => simp [hins]
    | ok bytes =>
      by_cases hl : bytes.length ≠ d.total_row_size <;> simp [hins, hl] at h ⊢
  · intro h
    rw [mem_insert_eq] at h ⊢
    cases hins : d.get_insertion_bytes s.id_counter cols with
    | error e' => simp [hins] at h
    | ok bytes =>
      by_cases hl : bytes.length ≠ d.total_row_size
      · simp [hins, hl] at h
      · exact ⟨bytes, rfl, not_not.mp hl, by simp [hins, hl], by simp [hins, hl]⟩
  · intro e h
    rw [mem_insert_eq]
    simp [h]
  · intro bytes h hlen
    rw [mem_insert_eq]
    simp [h, hlen]
  · intro e h
    unfold FileByteStore.insert at h ⊢
    cases hins : d.get_insertion_bytes st.id_counter cols with
    | error e' => simp [hins]
    | ok bytes =>
      by_cases hl : bytes.length ≠ d.total_row_size <;> simp [hins, hl] at h ⊢
  · intro h
    unfold FileByteStore.insert at h ⊢
    cases hins : d.get_insertion_bytes st.id_counter cols with
    | error e' => simp [hins] at h
    | ok bytes =>
      by_cases hl : bytes.length ≠ d.total_row_size
      · simp [hins, hl] at h
      · exact ⟨bytes, rfl, not_not.mp hl, by simp [hins, hl], by simp [hins, hl]⟩

/-- Witness for C3 at a concrete failing encode: the value does not parse as
a uuid, the insert errors and the store is unchanged. -/
theorem C3_amended_witness :
    (InMemoryByteStore.new uuidTable).insert uuidTable [("u", "x")] =
      (.error "Could not parse x to a Uuid", InMemoryByteStore.new uuidTable) := by
  have h := (C3_amended uuidTable [("u", "x")] (InMemoryByteStore.new uuidTable)
    FileByteStore.freshFile).2.2.1
  exact h "Could not parse x to a Uuid" (by decide)

/-! ### Decimal round-trip lemmas (for C9) -/

theorem parseDigitsAcc_append (xs ys : List Char) : ∀ acc,
    parseDigitsAcc (xs ++ ys) acc =
      match parseDigitsAcc xs acc with
      | some m => parseDigitsAcc ys m
      | none => none := by
  induction xs with
  | nil => intro acc; rfl
  | cons c cs ih =>
    intro acc
    rw [List.cons_append]
    cases h : digitVal c with
    | none => simp [parseDigitsAcc, h]
    | some d =>
      simp only [parseDigitsAcc, h]
      exact ih _

theorem digitVal_digitChar {d : Nat} (hd : d < 10) : digitVal (digitChar d) = some d := by
  interval_cases d <;> decide

theorem digitChar_ne_minus {d : Nat} (hd : d < 10) : digitChar d ≠ '-' := by
  interval_cases d <;> decide

theorem digitChar_ne_plus {d : Nat} (hd : d < 10) : digitChar d ≠ '+' := by
  interval_cases d <;> decide

theorem natDigitsRevAux_mem_lt : ∀ fuel n d, d ∈ natDigitsRevAux fuel n → d < 10 := by
  intro fuel
  induction fuel with
  | zero => intro n d h; simp [natDigitsRevAux] at h
  | succ f ih =>
    intro n d h
    by_cases hn : n = 0
    · simp [natDigitsRevAux, hn] at h
    · simp only [natDigitsRevAux, if_neg hn, List.mem_cons] at h
      rcases h with h | h
      · subst h; exact Nat.mod_lt _ (by norm_num)
      · exact ih _ _ h

theorem parse_digits_aux : ∀ fuel n acc, n ≤ fuel →
    parseDigitsAcc (((natDigitsRevAux fuel n).reverse).map digitChar) acc =
      some (acc * 10 ^ (natDigitsRevAux fuel n).length + n) := by
  intro fuel
  induction fuel with
  | zero =>
    intro n acc hn
    interval_cases n
    simp [natDigitsRevAux, parseDigitsAcc]
  | succ f ih =>
    intro n acc hn
    by_cases h0 : n = 0
    · subst h0; simp [natDigitsRevAux, parseDigitsAcc]
    · have hdiv : n / 10 < n := Nat.div_lt_self (Nat.pos_of_ne_zero h0) (by norm_num)
      have hrec : n / 10 ≤ f := by omega
      simp only [natDigitsRevAux, if_neg h0, List.reverse_cons, List.map_append,
        List.length_cons]
      rw [parseDigitsAcc_append, ih (n / 10) acc hrec]
      simp only [List.map_cons, List.map_nil, parseDigitsAcc,
        digitVal_digitChar (Nat.mod_lt n (by norm_num))]
      congr 1
      have harith : (acc * 10 ^ (natDigitsRevAux f (n / 10)).length + n / 10) * 10 + n % 10 =
          acc * (10 ^ (natDigitsRevAux f (n / 10)).length * 10) + (n / 10 * 10 + n % 10) := by
        ring
      rw [harith, Nat.div_add_mod', pow_succ]

theorem parse_natRenderChars (n : Nat) : parseDigitsAcc (natRenderChars n) 0 = some n := by
  by_cases h0 : n = 0
  · subst h0; decide
  · unfold natRenderChars natDigitsRev
    rw [if_neg h0]
    have h := parse_digits_aux n n 0 le_rfl
    simpa using h

theorem natRenderChars_shape (n : Nat) :
    ∃ c cs, natRenderChars n = c :: cs ∧ ∃ d, d < 10 ∧ c = digitChar d := by
  by_cases h0 : n = 0
  · subst h0
    exact ⟨'0', [], by decide, 0, by norm_num, by decide⟩
  · obtain ⟨m, rfl⟩ := Nat.exists_eq_succ_of_ne_zero h0
    unfold natRenderChars natDigitsRev
    rw [if_neg h0]
    simp only [natDigitsRevAux, if_neg h0, List.reverse_cons, List.map_append]
    rcases hrev : ((natDigitsRevAux m ((m + 1) / 10)).reverse).map digitChar with _ | ⟨c, cs⟩
    · refine ⟨digitChar ((m + 1) % 10), [], by simp [hrev], (m + 1) % 10,
        Nat.mod_lt _ (by norm_num), rfl⟩
    · refine ⟨c, cs ++ [digitChar ((m + 1) % 10)], by simp [hrev], ?_⟩
      have hc : c ∈ ((natDigitsRevAux m ((m + 1) / 10)).reverse).map digitChar := by
        rw [hrev]; exact List.mem_cons_self _ _
      rcases List.mem_map.mp hc with ⟨d, hd, rfl⟩
      exact ⟨d, natDigitsRevAux_mem_lt _ _ _ (List.mem_reverse.mp hd), rfl⟩

theorem natRender_data (n : Nat) : (natRender n).data = natRenderChars n := rfl

theorem rustParseNatCore_natRenderChars (n : Nat) :
    rustParseNatCore (natRenderChars n) = some n := by
  obtain ⟨c, cs, hc, d, hd, rfl⟩ := natRenderChars_shape n
  have h := parse_natRenderChars n
  rw [hc] at h
  rw [hc]
  simpa [rustParseNatCore] using h

theorem rustParseUnsigned_natRender (bound n : Nat) :
    rustParseUnsigned bound (natRender n) =
      if n < bound then some n else none := by
  obtain ⟨c, cs, hc, d, hd, rfl⟩ := natRenderChars_shape n
  unfold rustParseUnsigned stripPlus
  rw [natRender_data, hc]
  simp only [if_neg (digitChar_ne_plus hd)]
  rw [← hc, rustParseNatCore_natRenderChars]
  rfl

theorem string_data_append (a b : String) : (a ++ b).data = a.data ++ b.data := rfl

/-- One-step unfolding of the signed parse on a non-empty character list. -/
theorem rustParseSigned_cons (bound : Nat) (c : Char) (rest : List Char) :
    rustParseSigned bound ⟨c :: rest⟩ =
      if c = '-' then
        (rustParseNatCore rest).bind fun n => if n ≤ bound then some (-(n : Int)) else none
      else if c = '+' then
        (rustParseNatCore rest).bind fun n => if n < bound then some ((n : Int)) else none
      else
        (rustParseNatCore (c :: rest)).bind fun n =>
          if n < bound then some ((n : Int)) else none := rfl

theorem rustParseSigned_intRender (bound : Nat) (v : Int)
    (h1 : -(bound : Int) ≤ v) (h2 : v < bound) :
    rustParseSigned bound (intRender v) = some v := by
  by_cases hv : v < 0
  · unfold intRender
    rw [if_pos hv]
    have hstr : ("-" : String) ++ natRender v.natAbs = ⟨'-' :: natRenderChars v.natAbs⟩ := rfl
    rw [hstr, rustParseSigned_cons]
    rw [if_pos rfl, rustParseNatCore_natRenderChars]
    have habs : ((v.natAbs : Int)) = -v := Int.ofNat_natAbs_of_nonpos (le_of_lt hv)
    have hle : v.natAbs ≤ bound := by omega
    simp only [Option.bind_eq_bind, Option.some_bind, if_pos hle]
    rw [habs, neg_neg]
  · push_neg at hv
    unfold intRender
    rw [if_neg (not_lt.mpr hv)]
    obtain ⟨c, cs, hc, d, hd, rfl⟩ := natRenderChars_shape v.toNat
    unfold natRender
    rw [hc, rustParseSigned_cons]
    rw [if_neg (digitChar_ne_minus hd), if_neg (digitChar_ne_plus hd)]
    rw [← hc, rustParseNatCore_natRenderChars]
    have hlt : v.toNat < bound := by omega
    simp only [Option.bind_eq_bind, Option.some_bind, if_pos hlt]
    congr 1
    omega

theorem asSigned_four (v : Int) (h1 : -(2 ^ 31) ≤ v) (h2 : v < 2 ^ 31) :
    asSigned 4 ((v % (2 ^ 32)).toNat) = v := by
  unfold asSigned
  rw [(by norm_num : ((2 : Int) ^ 32) = 4294967296), Int.emod_def]
  split <;> omega

theorem asSigned_eight (v : Int) (h1 : -(2 ^ 63) ≤ v) (h2 : v < 2 ^ 63) :
    asSigned 8 ((v % (2 ^ 64)).toNat) = v := by
  unfold asSigned
  rw [(by norm_num : ((2 : Int) ^ 64) = 18446744073709551616), Int.emod_def]
  split <;> omega

/-- Claim C9 (confirmed): for every fixed-width primitive, decoding the
encoding of a representable value yields the value's text again, and the
decoder accepts arbitrary trailing bytes, reading only the type's width.
The encoding of a value is the byte vector `parse_string` produces from its
canonical text (for `SerialId`, which rejects supplied text, the store's
little-endian id encoding `toLe 8`). -/
theorem C9_roundtrip :
    (∀ extra : List Nat,
      ColumnDataType.Boolean.parse_string "true" = .ok [1] ∧
      ColumnDataType.Boolean.parse_string "false" = .ok [0] ∧
      ColumnDataType.Boolean.parse_bytes (([1] : List Nat) ++ extra) = .ok (.ok "true") ∧
      ColumnDataType.Boolean.parse_bytes (([0] : List Nat) ++ extra) = .ok (.ok "false")) ∧
    (∀ (v : Int), -(2 ^ 31) ≤ v → v < 2 ^ 31 → ∀ extra : List Nat,
      ColumnDataType.Int32.parse_string (intRender v) =
        .ok (toLe 4 (v % (2 ^ 32)).toNat) ∧
      ColumnDataType.Int32.parse_bytes (toLe 4 (v % (2 ^ 32)).toNat ++ extra) =
        .ok (.ok (intRender v))) ∧
    (∀ n : Nat, n < 2 ^ 32 → ∀ extra : List Nat,
      ColumnDataType.UInt32.parse_string (natRender n) = .ok (toLe 4 n) ∧
      ColumnDataType.UInt32.parse_bytes (toLe 4 n ++ extra) = .ok (.ok (natRender n))) ∧
    (∀ (v : Int), -(2 ^ 63) ≤ v → v < 2 ^ 63 → ∀ extra : List Nat,
      ColumnDataType.Int64.parse_string (intRender v) =
        .ok (toLe 8 (v % (2 ^ 64)).toNat) ∧
      ColumnDataType.Int64.parse_bytes (toLe 8 (v % (2 ^ 64)).toNat ++ extra) =
        .ok (.ok (intRender v))) ∧
    (∀ n : Nat, n < 2 ^ 64 → ∀ extra : List Nat,
      ColumnDataType.UInt64.parse_string (natRender n) = .ok (toLe 8 n) ∧
      ColumnDataType.UInt64.parse_bytes (toLe 8 n ++ extra) = .ok (.ok (natRender n))) ∧
    (∀ n : Nat, n < 2 ^ 64 → ∀ extra : List Nat,
      ColumnDataType.SerialId.parse_bytes (toLe 8 n ++ extra) = .ok (.ok (natRender n))) := by
  refine ⟨?_, ?_, ?_, ?_, ?_, ?_⟩
  · intro extra
    exact ⟨rfl, rfl, rfl, rfl⟩
  · intro v h1 h2 extra
    constructor
    · have hp := rustParseSigned_intRender (2 ^ 31) v (by exact_mod_cast h1) (by exact_mod_cast h2)
      unfold ColumnDataType.parse_string
      rw [hp]
    · have hnotlt : ¬ ((toLe 4 (v % (2 ^ 32)).toNat ++ extra).length < 4) := by
        rw [List.length_append, toLe_length]; omega
      have hm : (v % (2 ^ 32)).toNat < 256 ^ 4 := by
        rw [(by norm_num : ((2 : Int) ^ 32) = 4294967296), Int.emod_def,
          (by norm_num : (256 : Nat) ^ 4 = 4294967296)]
        omega
      unfold ColumnDataType.parse_bytes toNativeTypeI32
      rw [if_neg hnotlt, take_toLe_append, fromLe_toLe, Nat.mod_eq_of_lt hm,
        asSigned_four v h1 h2]
  · intro n hn extra
    constructor
    · have hp := rustParseUnsigned_natRender (2 ^ 32) n
      rw [if_pos hn] at hp
      unfold ColumnDataType.parse_string
      rw [hp]
    · have hnotlt : ¬ ((toLe 4 n ++ extra).length < 4) := by
        rw [List.length_append, toLe_length]; omega
      have hm : n < 256 ^ 4 := by
        rw [(by norm_num : (256 : Nat) ^ 4 = 2 ^ 32)]; exact hn
      unfold ColumnDataType.parse_bytes toNativeTypeU32
      rw [if_neg hnotlt, take_toLe_append, fromLe_toLe, Nat.mod_eq_of_lt hm]
  · intro v h1 h2 extra
    constructor
    · have hp := rustParseSigned_intRender (2 ^ 63) v (by exact_mod_cast h1) (by exact_mod_cast h2)
      unfold ColumnDataType.parse_string
      rw [hp]
    · have hnotlt : ¬ ((toLe 8 (v % (2 ^ 64)).toNat ++ extra).length < 8) := by
        rw [List.length_append, toLe_length]; omega
      have hm : (v % (2 ^ 64)).toNat < 256 ^ 8 := by
        rw [(by norm_num : ((2 : Int) ^ 64) = 18446744073709551616), Int.emod_def,
          (by norm_num : (256 : Nat) ^ 8 = 18446744073709551616)]
        omega
      unfold ColumnDataType.parse_bytes toNativeTypeI64
      rw [if_neg hnotlt, take_toLe_append, fromLe_toLe, Nat.mod_eq_of_lt hm,
        asSigned_eight v h1 h2]
  · intro n hn extra
    constructor
    · have hp := rustParseUnsigned_natRender (2 ^ 64) n
      rw [if_pos hn] at hp
      unfold ColumnDataType.parse_string
      rw [hp]
    · have hnotlt : ¬ ((toLe 8 n ++ extra).length < 8) := by
        rw [List.length_append, toLe_length]; omega
      have hm : n < 256 ^ 8 := by
        rw [(by norm_num : (256 : Nat) ^ 8 = 2 ^ 64)]; exact hn
      unfold ColumnDataType.parse_bytes toNativeTypeU64
      rw [if_neg hnotlt, take_toLe_append, fromLe_toLe, Nat.mod_eq_of_lt hm]
  · intro n hn extra
    have hnotlt : ¬ ((toLe 8 n ++ extra).length < 8) := by
      rw [List.length_append, toLe_length]; omega
    have hm : n < 256 ^ 8 := by
      rw [(by norm_num : (256 : Nat) ^ 8 = 2 ^ 64)]; exact hn
    unfold ColumnDataType.parse_bytes toNativeTypeU64
    rw [if_neg hnotlt, take_toLe_append, fromLe_toLe, Nat.mod_eq_of_lt hm]

/-- Witness for C9 at `-5 : i32` with a junk trailing byte. -/
theorem C9_roundtrip_witness :
    ColumnDataType.Int32.parse_bytes (toLe 4 ((-5 : Int) % (2 ^ 32)).toNat ++ [7]) =
      .ok (.ok "-5") := by
  have h := (C9_roundtrip.2.1 (-5) (by norm_num) (by norm_num) [7]).2
  have h2 : intRender (-5 : Int) = "-5" := by decide
  rw [h2] at h
  exact h

/-! ### Executor partial-row lemmas (for C7) -/

theorem fromLe_lt (l : List Nat) (h : ∀ b ∈ l, b < 256) : fromLe l < 256 ^ l.length := by
  induction l with
  | nil => simp [fromLe]
  | cons b bs ih =>
    have hb := h b (List.mem_cons_self _ _)
    have hrest := ih fun x hx => h x (List.mem_cons_of_mem _ hx)
    simp only [fromLe, List.length_cons, pow_succ]
    omega

/-- The scan loop over the `books` layout panics whenever the byte stream is
not a whole number of 141-byte rows (stated on the fuelled loop; the fuel
hypothesis is satisfied by `queryLoop`). -/
theorem C7core : ∀ f (body : List Nat), body.length < f → (∀ b ∈ body, b < 256) →
    body.length % 141 ≠ 0 →
    queryLoopAux booksQueryIdOnly 141 f body =
      .error (.crash "woah buddy, file size aint right") := by
  intro f
  induction f with
  | zero => intro body hf _ _; omega
  | succ f ih =>
    intro body hf hb hmod
    by_cases h0 : min 141 body.length = 0
    · exfalso
      have hlen0 : body.length = 0 := by omega
      omega
    · by_cases h1 : min 141 body.length ≠ 141
      · simp only [queryLoopAux, if_neg h0, if_pos h1]
      · have hlen : 141 ≤ body.length := by omega
        have hrowlen : (body.take 141).length = 141 := by
          simp only [List.length_take]; omega
        have h8 : ¬((body.take 141).length < 8) := by omega
        have htake8 : ((body.take 141).take 8).length = 8 := by
          simp only [List.length_take]; omega
        have hvlt : fromLe ((body.take 141).take 8) < 2 ^ 64 := by
          have h2 := fromLe_lt ((body.take 141).take 8)
            (fun x hx => hb x (List.take_subset _ _ (List.take_subset _ _ hx)))
          rw [htake8] at h2
          omega
        have hparse := rustParseUnsigned_natRender (2 ^ 64) (fromLe ((body.take 141).take 8))
        rw [if_pos hvlt] at hparse
        have hdrop_lt : (body.drop 141).length < f := by
          simp only [List.length_drop]; omega
        have hdrop_b : ∀ x ∈ body.drop 141, x < 256 :=
          fun x hx => hb x (List.drop_subset _ _ hx)
        have hdrop_mod : (body.drop 141).length % 141 ≠ 0 := by
          simp only [List.length_drop]; omega
        have hrec := ih (body.drop 141) hdrop_lt hdrop_b hdrop_mod
        have hidc : booksQueryIdOnly.table.id_column? =
          some ⟨"id", ColumnDataType.SerialId, 0⟩ := by decide
        have hwp : booksQueryIdOnly.where_predicate = none := rfl
        have hcols : booksQueryIdOnly.columns = [⟨"id", ColumnDataType.SerialId, 0⟩] := rfl
        simp only [queryLoopAux, if_neg h0, if_neg h1, hidc, hwp, hcols,
          ColumnDataType.parse_bytes, toNativeTypeU64, List.drop_zero, if_neg h8,
          hparse, projectColumns, hrec, Except.map]

/-- Claim C7, counterexample: a `books` store whose byte stream is a 100-byte
partial row makes `Database::query` panic (`woah buddy, file size aint
right`) — the function returns a plain vector and has no error channel, so
nothing is returned to the caller as a `CorruptStore` value. -/
theorem C7_counterexample :
    (booksDbWithBody 1 (List.replicate 100 0)).query booksQueryIdOnly =
      .error (.crash "woah buddy, file size aint right") := by decide

/-- Claim C7, amended: when the `books` store's byte stream ends in a
partial row (length not a multiple of the row size), `Database::query`
*panics* with `woah buddy, file size aint right` — there is no error return
at all (the function returns a bare vector), so no `CorruptStore` value
reaches the caller. -/
theorem C7_amended (c : Nat) (body : List Nat) (hbytes : ∀ b ∈ body, b < 256)
    (hmod : body.length % booksTable.total_row_size ≠ 0) :
    (booksDbWithBody c body).query booksQueryIdOnly =
      .error (.crash "woah buddy, file size aint right") := by
  have h141 : booksTable.total_row_size = 141 := by decide
  rw [h141] at hmod
  show queryLoop booksQueryIdOnly 141 body = _
  exact C7core (body.length + 1) body (Nat.lt_succ_self _) hbytes hmod

/-- Witness for C7 at a 287-byte body (two whole rows and a 5-byte tail). -/
theorem C7_amended_witness :
    (booksDbWithBody 0 (List.replicate 287 0)).query booksQueryIdOnly =
      .error (.crash "woah buddy, file size aint right") := by
  refine C7_amended 0 (List.replicate 287 0) ?_ ?_
  · intro b hbm
    rw [List.eq_of_mem_replicate hbm]
    norm_num
  · decide

end Kronk
